import Mathlib

/-!
Verification of the financial simulation core of `house_vs_btc`.

The Python sources under `src/calcs/` (and the older parallel implementation
in `src/calcs.py`) are shallowly embedded here over exact rationals `ℚ`
(Python floats are modelled as exact arithmetic).  Fallible functions that
`raise ValueError(...)` are modelled with `Except CalcError`; the
`ValueError` messages of the source are recorded in comments.  A Python
`ZeroDivisionError` (float division by zero) is modelled by the
`divisionByZero` error where it is reachable; elsewhere division is total
(the claims never touch those points).
-/

/-- The single error taxonomy of the core: `invalidInput` stands for the
source's `ValueError` raises, `divisionByZero` for a Python
`ZeroDivisionError` raised by `/` at runtime. -/
inductive CalcError where
  | invalidInput
  | divisionByZero
deriving DecidableEq

deriving instance DecidableEq for Except

/-! ## `calcs/utils.py` -/

/-- `adjust_for_inflation(value, inflation_rate, year)` from `calcs/utils.py`.
Validation (source messages): `inflation_rate < -1` raises
`Inflation rate cannot be less than -100%.`; `year < 1` raises
`Year must be at least 1.`.  Otherwise Python computes
`value / ((1 + inflation_rate) ** (year - 1))`; when `inflation_rate = -1`
and `year ≥ 2` the denominator is `0.0` and Python raises
`ZeroDivisionError`, modelled by the explicit zero test. -/
def adjust_for_inflation (value inflation_rate : ℚ) (year : ℤ) : Except CalcError ℚ :=
  if inflation_rate < -1 then .error .invalidInput
  else if year < 1 then .error .invalidInput
  else
    let denom : ℚ := (1 + inflation_rate) ^ (year - 1).toNat
    if denom = 0 then .error .divisionByZero
    else .ok (value / denom)

/-! ## `calcs/housing_calcs.py` -/

/-- The `HousePurchase` dataclass. -/
structure HousePurchase where
  house_price : ℚ
  deposit : ℚ
  annual_house_growth_rate : ℚ
  mortgage_interest_rate : ℚ
  mortgage_term_years : ℕ
  years_to_simulate : ℕ
  annual_property_costs : ℚ
  inflation_rate : ℚ
deriving DecidableEq

/-- One row of the amortization schedule (one month). -/
structure AmortEntry where
  month : ℕ
  interest : ℚ
  principal : ℚ
  balance : ℚ
  year : ℕ
deriving DecidableEq

/-- The `MortgageAmortizationSchedule` dataclass; `entries` stands for the
row data that also backs `schedule_df`. -/
structure MortgageAmortizationSchedule where
  month : List ℕ
  interest : List ℚ
  principal : List ℚ
  balance : List ℚ
  year : List ℕ
  entries : List AmortEntry
deriving DecidableEq

/-- The `HouseInvestmentDetails` dataclass. -/
structure HouseInvestmentDetails where
  house_values : List ℚ
  mortgage_balances : List ℚ
  equities : List ℚ
  annual_interest : List ℚ
  annual_principal : List ℚ
  annual_property_costs : List ℚ
  cumulative_investment_house : List ℚ
  amortization_schedule : MortgageAmortizationSchedule
deriving DecidableEq

/-- The `MortgageDetails` dataclass. -/
structure MortgageDetails where
  loan_amount : ℚ
  lmi_cost : ℚ
  monthly_mortgage_payment : ℚ
  weekly_mortgage_payment : ℚ
  monthly_income : ℚ
  monthly_surplus : ℚ
deriving DecidableEq

/-- `calculate_lmi(loan_amount, property_value)`.  Validation messages:
`Property value must be greater than zero.` and
`Loan amount cannot be negative.`. -/
def calculate_lmi (loan_amount property_value : ℚ) : Except CalcError ℚ :=
  if property_value ≤ 0 then .error .invalidInput
  else if loan_amount < 0 then .error .invalidInput
  else
    let lvr := loan_amount / property_value
    if lvr ≤ 0.8 then .ok 0
    else if lvr ≤ 0.85 then .ok (loan_amount * 0.005)
    else if lvr ≤ 0.9 then .ok (loan_amount * 0.01)
    else if lvr ≤ 0.95 then .ok (loan_amount * 0.02)
    else .ok (loan_amount * 0.03)

/-- `-npf.pmt(monthly_rate, nper, pv)`: the standard annuity payment,
`pv·r·(1+r)^n / ((1+r)^n - 1)` for `r ≠ 0` and `pv/n` for `r = 0`. -/
def npf_pmt (monthly_rate : ℚ) (nper : ℕ) (pv : ℚ) : ℚ :=
  if monthly_rate = 0 then pv / nper
  else pv * monthly_rate * (1 + monthly_rate) ^ nper / ((1 + monthly_rate) ^ nper - 1)

/-- The month loop of `generate_mortgage_amortization_schedule`
(`for n in range(1, total_payments + 1)`), with `fuel` the remaining
months, `m` the current month number and `bal` the running balance.
Mirrors the source: `interest = bal*rate`;
`principal = payment + extra - interest`; if `principal > bal` the
principal is capped at `bal` and the balance set to `0`; the loop breaks
as soon as the (recorded) balance is `≤ 0`. -/
def amortRun (payment extra rate : ℚ) : ℕ → ℕ → ℚ → List AmortEntry
  | 0, _, _ => []
  | fuel + 1, m, bal =>
    let interest := bal * rate
    let principal := payment + extra - interest
    if bal < principal then
      [⟨m, interest, bal, 0, (m - 1) / 12 + 1⟩]
    else
      let bal2 := bal - principal
      let entry : AmortEntry := ⟨m, interest, principal, bal2, (m - 1) / 12 + 1⟩
      if bal2 ≤ 0 then [entry]
      else entry :: amortRun payment extra rate fuel (m + 1) bal2

/-- The schedule value built by `generate_mortgage_amortization_schedule`
once validation has passed. -/
def buildSchedule (loan_amount annual_interest_rate : ℚ) (mortgage_term_years : ℕ)
    (extra_payment_per_month : ℚ) : MortgageAmortizationSchedule :=
  let monthly_interest_rate := annual_interest_rate / 12
  let total_payments := mortgage_term_years * 12
  let monthly_payment := npf_pmt monthly_interest_rate total_payments loan_amount
  let entries := amortRun monthly_payment extra_payment_per_month monthly_interest_rate
    total_payments 1 loan_amount
  ⟨entries.map AmortEntry.month, entries.map AmortEntry.interest,
   entries.map AmortEntry.principal, entries.map AmortEntry.balance,
   entries.map AmortEntry.year, entries⟩

/-- `generate_mortgage_amortization_schedule`.  Validation messages:
`Loan amount must be greater than zero.`,
`Annual interest rate cannot be negative.`,
`Mortgage term must be positive.`,
`Extra payment per month cannot be negative.`. -/
def generate_mortgage_amortization_schedule (loan_amount annual_interest_rate : ℚ)
    (mortgage_term_years : ℕ) (extra_payment_per_month : ℚ) :
    Except CalcError MortgageAmortizationSchedule :=
  if loan_amount ≤ 0 then .error .invalidInput
  else if annual_interest_rate < 0 then .error .invalidInput
  else if mortgage_term_years = 0 then .error .invalidInput
  else if extra_payment_per_month < 0 then .error .invalidInput
  else .ok (buildSchedule loan_amount annual_interest_rate mortgage_term_years
    extra_payment_per_month)

/-- Largest `Year` value occurring in the schedule (`0` for an empty one).
Months are consecutive from `1`, so the years present are exactly
`1..maxYear`. -/
def maxYear (entries : List AmortEntry) : ℕ :=
  (entries.map AmortEntry.year).foldr max 0

/-- `schedule_df.groupby('Year')[col].sum().tolist()`: the per-year sums of
`f` over the schedule, listed for years `1..maxYear` in order. -/
def annualGroupSum (f : AmortEntry → ℚ) (entries : List AmortEntry) : List ℚ :=
  (List.range (maxYear entries)).map fun k =>
    ((entries.filter fun e => e.year = k + 1).map f).sum

/-- The five series accumulated by the year loop of
`simulate_house_investment`. -/
structure HouseSeries where
  house_values : List ℚ
  mortgage_balances : List ℚ
  equities : List ℚ
  annual_costs : List ℚ
  cumulative_investment : List ℚ

/-- The year loop of `simulate_house_investment`
(`for year in range(1, years_to_simulate + 1)`), with `n` the remaining
years, `year` the current year, `bal` the running mortgage balance and
`invested` the running cumulative investment.  The balance is only
updated (and clamped at `0`) while `year ≤ len(annual_principal)`, and
the cumulative investment adds the year's principal only in that case,
exactly as in the source. -/
def houseLoop (hp : HousePurchase) (annual_principal : List ℚ) :
    ℕ → ℕ → ℚ → ℚ → HouseSeries
  | 0, _, _, _ => ⟨[], [], [], [], []⟩
  | n + 1, year, bal, invested =>
    let house_value := hp.house_price * (1 + hp.annual_house_growth_rate) ^ year
    let bal2 := if year ≤ annual_principal.length
      then max (bal - annual_principal.getD (year - 1) 0) 0 else bal
    let annual_costs := hp.annual_property_costs * (1 + hp.inflation_rate) ^ (year - 1)
    let equity := house_value - bal2
    let invested2 := if year ≤ annual_principal.length
      then invested + annual_principal.getD (year - 1) 0 + annual_costs
      else invested + annual_costs
    let rest := houseLoop hp annual_principal n (year + 1) bal2 invested2
    ⟨house_value :: rest.house_values, bal2 :: rest.mortgage_balances,
     equity :: rest.equities, annual_costs :: rest.annual_costs,
     invested2 :: rest.cumulative_investment⟩

/-- The `HouseInvestmentDetails` value built by `simulate_house_investment`
from the amortization schedule: annual group sums, the year loop, the
zero-padding of the annual interest/principal lists up to
`years_to_simulate`, and the final `[:years_to_simulate]` truncations. -/
def houseDetails (hp : HousePurchase) (sched : MortgageAmortizationSchedule) :
    HouseInvestmentDetails :=
  let annual_interest := annualGroupSum AmortEntry.interest sched.entries
  let annual_principal := annualGroupSum AmortEntry.principal sched.entries
  let loan_amount := hp.house_price - hp.deposit
  let s := houseLoop hp annual_principal hp.years_to_simulate 1 loan_amount hp.deposit
  { house_values := s.house_values.take hp.years_to_simulate
    mortgage_balances := s.mortgage_balances.take hp.years_to_simulate
    equities := s.equities.take hp.years_to_simulate
    annual_interest := (annual_interest ++
      List.replicate (hp.years_to_simulate - annual_interest.length) 0).take hp.years_to_simulate
    annual_principal := (annual_principal ++
      List.replicate (hp.years_to_simulate - annual_principal.length) 0).take hp.years_to_simulate
    annual_property_costs := s.annual_costs.take hp.years_to_simulate
    cumulative_investment_house := s.cumulative_investment.take hp.years_to_simulate
    amortization_schedule := sched }

/-- `simulate_house_investment(house_purchase)`.  Validation messages, in
source order: `House price must be greater than zero.`,
`Deposit cannot be negative.`, `Mortgage interest rate cannot be negative.`,
`Annual house growth rate cannot be negative.`,
`Annual property costs cannot be negative.`,
`Inflation rate cannot be less than -100%.`,
`Deposit cannot exceed house price.`.  The amortization schedule is
generated for `loan_amount = house_price - deposit` with no extra
payments; its own validation can also fail (notably `loan_amount ≤ 0`). -/
def simulate_house_investment (hp : HousePurchase) :
    Except CalcError HouseInvestmentDetails :=
  if hp.house_price ≤ 0 then .error .invalidInput
  else if hp.deposit < 0 then .error .invalidInput
  else if hp.mortgage_interest_rate < 0 then .error .invalidInput
  else if hp.annual_house_growth_rate < 0 then .error .invalidInput
  else if hp.annual_property_costs < 0 then .error .invalidInput
  else if hp.inflation_rate < -1 then .error .invalidInput
  else
    let loan_amount := hp.house_price - hp.deposit
    if loan_amount < 0 then .error .invalidInput
    else
      match generate_mortgage_amortization_schedule loan_amount
        hp.mortgage_interest_rate hp.mortgage_term_years 0 with
      | .error e => .error e
      | .ok sched => .ok (houseDetails hp sched)

/-- `calculate_mortgage_details(house_purchase, annual_income)`.
Validation messages: `Annual income cannot be negative.`,
`Deposit cannot exceed house price.`, plus those of `calculate_lmi`.
The LMI surcharge is added to the loan amount here, and the annuity
payment is computed from the surcharge-inclusive total. -/
def calculate_mortgage_details (hp : HousePurchase) (annual_income : ℚ) :
    Except CalcError MortgageDetails :=
  if annual_income < 0 then .error .invalidInput
  else
    let loan_amount := hp.house_price - hp.deposit
    if loan_amount < 0 then .error .invalidInput
    else
      match calculate_lmi loan_amount hp.house_price with
      | .error e => .error e
      | .ok lmi_cost =>
        let total_loan_amount := loan_amount + lmi_cost
        let monthly_interest_rate := hp.mortgage_interest_rate / 12
        let total_payments := hp.mortgage_term_years * 12
        let monthly_mortgage_payment := npf_pmt monthly_interest_rate total_payments
          total_loan_amount
        let weekly_mortgage_payment := monthly_mortgage_payment * 12 / 52
        let monthly_income := annual_income / 12
        .ok ⟨total_loan_amount, lmi_cost, monthly_mortgage_payment,
          weekly_mortgage_payment, monthly_income,
          monthly_income - monthly_mortgage_payment⟩

/-! ## `calcs/btc_calcs.py` -/

/-- The `BTCInvestment` dataclass. -/
structure BTCInvestment where
  initial_investment : ℚ
  initial_btc_price : ℚ
  annual_investment_amounts : List ℚ
  annual_growth_rates : List ℚ
  years : ℕ
deriving DecidableEq

/-- The `BTCSimulationResult` dataclass. -/
structure BTCSimulationResult where
  years : ℕ
  btc_values : List ℚ
  total_invested : List ℚ
  btc_holdings : List ℚ
  cumulative_invested : List ℚ
  btc_prices : List ℚ
  annual_invested : List ℚ
  initial_btc_price : ℚ
deriving DecidableEq

/-- The running BTC price of the year loop of `simulate_btc_investments`:
`price_0` is the initial price and
`price_t = price_{t-1} * (1 + growth_rate_t)`. -/
def btcPriceAt (inv : BTCInvestment) : ℕ → ℚ
  | 0 => inv.initial_btc_price
  | t + 1 => btcPriceAt inv t * (1 + inv.annual_growth_rates.getD t 0)

/-- The running holdings of the year loop: the initial lump buys
`initial_investment / initial_btc_price` units, and year `t` adds
`amount_t / price_t` when `price_t > 0`, else `0` (the source guards the
division: `... if new_btc_price > 0 else 0`). -/
def btcHoldingsAt (inv : BTCInvestment) : ℕ → ℚ
  | 0 => inv.initial_investment / inv.initial_btc_price
  | t + 1 =>
    let p := btcPriceAt inv (t + 1)
    btcHoldingsAt inv t + (if 0 < p then inv.annual_investment_amounts.getD t 0 / p else 0)

/-- The running total invested of the year loop. -/
def btcTotalInvestedAt (inv : BTCInvestment) : ℕ → ℚ
  | 0 => inv.initial_investment
  | t + 1 => btcTotalInvestedAt inv t + inv.annual_investment_amounts.getD t 0

/-- The `BTCSimulationResult` built by the year loop of
`simulate_btc_investments`: the initial (year-0) element of every series
is dropped (`[1:]`), so each output list is indexed by years `1..N`. -/
def btcResult (inv : BTCInvestment) : BTCSimulationResult :=
  { years := inv.years
    btc_values := (List.range inv.years).map fun k =>
      btcHoldingsAt inv (k + 1) * btcPriceAt inv (k + 1)
    total_invested := (List.range inv.years).map fun k => btcTotalInvestedAt inv (k + 1)
    btc_holdings := (List.range inv.years).map fun k => btcHoldingsAt inv (k + 1)
    cumulative_invested := (List.range inv.years).map fun k => btcTotalInvestedAt inv (k + 1)
    btc_prices := (List.range inv.years).map fun k => btcPriceAt inv (k + 1)
    annual_invested := (List.range inv.years).map fun k =>
      inv.annual_investment_amounts.getD k 0
    initial_btc_price := inv.initial_btc_price }

/-- `simulate_btc_investments(investment)`.  Validation messages, in
source order: `Length of annual_investment_amounts must equal years.`,
`Length of annual_growth_rates must equal years.`,
`Initial BTC price must be positive.`,
`Initial investment cannot be negative.`,
`Growth rates must be greater than -100%.` (raised when some rate is
strictly below `-1`), `Annual investment amounts cannot be negative.`. -/
def simulate_btc_investments (inv : BTCInvestment) :
    Except CalcError BTCSimulationResult :=
  if inv.annual_investment_amounts.length ≠ inv.years then .error .invalidInput
  else if inv.annual_growth_rates.length ≠ inv.years then .error .invalidInput
  else if inv.initial_btc_price ≤ 0 then .error .invalidInput
  else if inv.initial_investment < 0 then .error .invalidInput
  else if ∃ r ∈ inv.annual_growth_rates, r < -1 then .error .invalidInput
  else if ∃ a ∈ inv.annual_investment_amounts, a < 0 then .error .invalidInput
  else .ok (btcResult inv)

/-- One entry of the per-contribution ledger
(`{'investment': ..., 'year_invested': ...}`). -/
structure ContributionRecord where
  investment : ℚ
  year_invested : ℕ
deriving DecidableEq

/-- The ledger built from the contributions of a simulation: the initial
lump at year `0` followed by one entry per simulated year, as built both
inside the loop of `simulate_btc_investments` and (identically) in
`simulate_and_adjust_btc_investment`. -/
def investments_record (inv : BTCInvestment) : List ContributionRecord :=
  ⟨inv.initial_investment, 0⟩ ::
    (List.range inv.years).map fun k => ⟨inv.annual_investment_amounts.getD k 0, k + 1⟩

/-- The purchase price used by `adjust_btc_for_tax` for a record:
`btc_prices[year_invested - 1]` when `year_invested > 0`, else the
initial BTC price. -/
def priceAtRecord (sim : BTCSimulationResult) (year_invested : ℕ) : ℚ :=
  if 0 < year_invested then sim.btc_prices.getD (year_invested - 1) 0
  else sim.initial_btc_price

/-- `adjust_btc_for_tax(simulation_result, investments_record, cgt_rate)`.
No validation is performed (in particular none on `cgt_rate`).  For each
year `t = 1..years` the source recomputes the current value as
`holdings[t-1] * prices[t-1]` and folds over the ledger: records with
`holding_period = t - year_invested ≤ 0` are skipped (`continue`);
otherwise `gain = (investment / purchase_price) * price_t - investment`
and, when `gain > 0`, `gain * cgt_rate * discount` is added, with
`discount = 0.5` iff the holding period exceeds `1`. -/
def adjust_btc_for_tax (sim : BTCSimulationResult) (rec : List ContributionRecord)
    (cgt_rate : ℚ) : List ℚ :=
  (List.range sim.years).map fun k =>
    let year := k + 1
    let btc_price := sim.btc_prices.getD (year - 1) 0
    let btc_holdings := sim.btc_holdings.getD (year - 1) 0
    let current_value := btc_holdings * btc_price
    let total_tax := rec.foldl (fun acc r =>
      if year ≤ r.year_invested then acc
      else
        let btc_purchased := r.investment / priceAtRecord sim r.year_invested
        let current_investment_value := btc_purchased * btc_price
        let gain := current_investment_value - r.investment
        if 0 < gain then
          acc + gain * cgt_rate * (if r.year_invested + 1 < year then (1 : ℚ) / 2 else 1)
        else acc) 0
    current_value - total_tax

/-- The ledger fold of `adjust_btc_for_tax` under Python's runtime
division semantics: for a record that is not skipped, the source divides
`investment / purchase_price`, and when that price is exactly `0.0`
(reachable, since a `-100%` growth rate passes validation) Python raises
`ZeroDivisionError`, aborting the whole call.  Skipped records
(`holding_period ≤ 0`) never reach the division. -/
def taxFoldChecked (sim : BTCSimulationResult) (cgt_rate : ℚ) (year : ℕ) :
    List ContributionRecord → ℚ → Except CalcError ℚ
  | [], acc => .ok acc
  | r :: rs, acc =>
    if year ≤ r.year_invested then taxFoldChecked sim cgt_rate year rs acc
    else if priceAtRecord sim r.year_invested = 0 then .error .divisionByZero
    else
      let btc_purchased := r.investment / priceAtRecord sim r.year_invested
      let current_investment_value := btc_purchased * sim.btc_prices.getD (year - 1) 0
      let gain := current_investment_value - r.investment
      taxFoldChecked sim cgt_rate year rs
        (if 0 < gain then
          acc + gain * cgt_rate * (if r.year_invested + 1 < year then (1 : ℚ) / 2 else 1)
        else acc)

/-- The year loop of `adjust_btc_for_tax` under Python's runtime
semantics (`n` remaining years, current year `year`): each year's ledger
fold may raise, which aborts the whole call. -/
def adjustYearsChecked (sim : BTCSimulationResult) (rec : List ContributionRecord)
    (cgt_rate : ℚ) : ℕ → ℕ → Except CalcError (List ℚ)
  | 0, _ => .ok []
  | n + 1, year =>
    match taxFoldChecked sim cgt_rate year rec 0 with
    | .error e => .error e
    | .ok total_tax =>
      match adjustYearsChecked sim rec cgt_rate n (year + 1) with
      | .error e => .error e
      | .ok rest =>
        .ok ((sim.btc_holdings.getD (year - 1) 0 * sim.btc_prices.getD (year - 1) 0 -
          total_tax) :: rest)

/-- `adjust_btc_for_tax` with Python's runtime division semantics: the
same source loop as `adjust_btc_for_tax`, but a ledger entry whose
purchase price is exactly `0` raises `ZeroDivisionError` instead of the
total `x / 0 = 0` convention.  On every run that completes, it returns
exactly the series of `adjust_btc_for_tax`. -/
def adjust_btc_for_tax_checked (sim : BTCSimulationResult)
    (rec : List ContributionRecord) (cgt_rate : ℚ) : Except CalcError (List ℚ) :=
  adjustYearsChecked sim rec cgt_rate sim.years 1

/-! ## `calcs.py` (older parallel implementation) -/

/-- `adjust_btc_for_inflation_and_cgt(btc_values, inflation_rate, cgt_rate,
years_range, total_invested_list)` from `calcs.py`: per year, the
aggregate taxable gain is `max(0, value - total_invested)`, taxed at the
full CGT rate, and the after-tax value is then divided by
`(1 + inflation_rate) ** (year - 1)`. -/
def adjust_btc_for_inflation_and_cgt (btc_values : List ℚ) (inflation_rate cgt_rate : ℚ)
    (years_range : List ℕ) (total_invested_list : List ℚ) : List ℚ :=
  (btc_values.zip (years_range.zip total_invested_list)).map fun (v, year, total_invested) =>
    let taxable_gain := max 0 (v - total_invested)
    let cgt := taxable_gain * cgt_rate
    let after_tax_value := v - cgt
    after_tax_value / (1 + inflation_rate) ^ (year - 1)

/-! ## Spec-side definitions

`specRecordTax` renders the per-entry tax formula exactly as the spec
words it (claim C2): for an entry invested in year `y < t`, the tax is
`max(0, (amount / price_at_year(y)) * price_t - amount) * cgt_rate`
with a 50% discount exactly when `t - y > 1`; entries with `y ≥ t`
contribute nothing. -/
def specRecordTax (sim : BTCSimulationResult) (cgt_rate : ℚ) (t : ℕ)
    (r : ContributionRecord) : ℚ :=
  if r.year_invested < t then
    max 0 (r.investment / priceAtRecord sim r.year_invested *
      sim.btc_prices.getD (t - 1) 0 - r.investment) * cgt_rate *
      (if 1 < t - r.year_invested then (1 : ℚ) / 2 else 1)
  else 0

/-! ## General list helpers -/

/-- Element `k` of `(List.range n).map f` is `f k`. -/
theorem listGetD_range_map {α : Type} (f : ℕ → α) (d : α) {n k : ℕ} (h : k < n) :
    ((List.range n).map f).getD k d = f k := by
  rw [List.getD_eq_getElem _ d (by simpa using h)]
  simp

/-- `getD _ 0` of an elementwise-nonnegative list is nonnegative. -/
theorem listGetD_nonneg {l : List ℚ} (hl : ∀ x ∈ l, 0 ≤ x) (k : ℕ) : 0 ≤ l.getD k 0 := by
  rcases lt_or_le k l.length with h | h
  · rw [List.getD_eq_getElem _ _ h]
    exact hl _ (List.getElem_mem h)
  · rw [List.getD_eq_default _ _ h]

/-- Sum of a map over `List.range` as a `Finset.range` sum. -/
theorem list_range_map_sum (f : ℕ → ℚ) (n : ℕ) :
    ((List.range n).map f).sum = ∑ k ∈ Finset.range n, f k := by
  induction n with
  | zero => simp
  | succ n ih =>
    rw [List.range_succ, List.map_append, List.sum_append, Finset.sum_range_succ, ih]
    simp

/-- A left fold that only ever adds a per-element amount is the sum of
those amounts. -/
theorem list_foldl_add_of {α : Type} (body : ℚ → α → ℚ) (g : α → ℚ)
    (hbody : ∀ acc r, body acc r = acc + g r) :
    ∀ (l : List α) (acc : ℚ), l.foldl body acc = acc + (l.map g).sum
  | [], acc => by simp
  | x :: xs, acc => by
    rw [List.foldl_cons, hbody, list_foldl_add_of body g hbody xs, List.map_cons,
      List.sum_cons]
    ring

/-! ## Amortization-loop lemmas -/

/-- The balance after the last recorded entry (`b` if nothing was
recorded). -/
def lastBalance : List AmortEntry → ℚ → ℚ
  | [], b => b
  | e :: l, _ => lastBalance l e.balance

/-- `lastBalance` of a nonempty schedule is the balance of its last
entry. -/
theorem getLast?_map_balance :
    ∀ (l : List AmortEntry) (b : ℚ), l ≠ [] →
      (l.map AmortEntry.balance).getLast? = some (lastBalance l b)
  | [], _, h => absurd rfl h
  | [e], b, _ => by simp [lastBalance]
  | e :: x :: xs, b, _ => by
    have ih := getLast?_map_balance (x :: xs) e.balance (by simp)
    simpa [lastBalance] using ih

/-- Conservation: the recorded principal portions plus the final balance
always account exactly for the starting balance. -/
theorem amortRun_sum_balance (payment extra rate : ℚ) :
    ∀ (fuel m : ℕ) (bal : ℚ),
      ((amortRun payment extra rate fuel m bal).map AmortEntry.principal).sum
        + lastBalance (amortRun payment extra rate fuel m bal) bal = bal
  | 0, _, bal => by simp [amortRun, lastBalance]
  | fuel + 1, m, bal => by
    simp only [amortRun]
    split_ifs with hcap hstop
    · simp [lastBalance]
    · simp only [List.map_cons, List.map_nil, List.sum_cons, List.sum_nil, lastBalance]
      ring
    · have ih := amortRun_sum_balance payment extra rate fuel (m + 1)
        (bal - (payment + extra - bal * rate))
      simp only [List.map_cons, List.sum_cons, lastBalance]
      linarith [ih]

/-- Length of the recorded schedule never exceeds the fuel (the number of
scheduled payments). -/
theorem amortRun_length (payment extra rate : ℚ) :
    ∀ (fuel m : ℕ) (bal : ℚ), (amortRun payment extra rate fuel m bal).length ≤ fuel
  | 0, _, _ => by simp [amortRun]
  | fuel + 1, m, bal => by
    simp only [amortRun]
    split_ifs with hcap hstop
    · simp
    · simp
    · simpa using amortRun_length payment extra rate fuel (m + 1) _

/-- The hypothetical uncapped balance after `m` further payments of `q`,
starting from `b`: `(1+r)^m·b - q·Σ_{k<m}(1+r)^k`. -/
def idealBal (q rate : ℚ) (m : ℕ) (b : ℚ) : ℚ :=
  (1 + rate) ^ m * b - q * ∑ k ∈ Finset.range m, (1 + rate) ^ k

theorem idealBal_succ (q rate : ℚ) (m : ℕ) (b : ℚ) :
    idealBal q rate (m + 1) b = idealBal q rate m ((1 + rate) * b - q) := by
  unfold idealBal
  rw [Finset.sum_range_succ]
  ring

/-- If the uncapped balance would be driven `≤ 0` within the available
fuel, the loop ends with final balance exactly `0` (the cap / early break
make it land on `0` exactly). -/
theorem amortRun_lastBalance_zero (payment extra rate : ℚ) :
    ∀ (fuel m : ℕ) (bal : ℚ), 0 < bal →
      idealBal (payment + extra) rate fuel bal ≤ 0 →
      lastBalance (amortRun payment extra rate fuel m bal) bal = 0
  | 0, _, bal, hpos, hideal => by
    exfalso
    simp only [idealBal, pow_zero, one_mul, Finset.range_zero, Finset.sum_empty,
      mul_zero, sub_zero] at hideal
    linarith
  | fuel + 1, m, bal, hpos, hideal => by
    simp only [amortRun]
    split_ifs with hcap hstop
    · simp [lastBalance]
    · simp only [lastBalance]
      push_neg at hcap
      linarith
    · push_neg at hstop
      simp only [lastBalance]
      have hstep : bal - (payment + extra - bal * rate) = (1 + rate) * bal - (payment + extra) := by
        ring
      refine amortRun_lastBalance_zero payment extra rate fuel (m + 1) _ hstop ?_
      rw [hstep, ← idealBal_succ]
      exact hideal

/-- The annuity payment drives the uncapped balance to (at most) zero in
`n` payments: `idealBal (pmt + extra) rate n L ≤ 0`. -/
theorem idealBal_npf_pmt (L rate : ℚ) (n : ℕ) (extra : ℚ) (hL : 0 < L) (hr : 0 ≤ rate)
    (hn : n ≠ 0) (he : 0 ≤ extra) :
    idealBal (npf_pmt rate n L + extra) rate n L ≤ 0 := by
  have hsumnn : (0 : ℚ) ≤ ∑ k ∈ Finset.range n, (1 + rate) ^ k :=
    Finset.sum_nonneg fun k _ => pow_nonneg (by linarith) k
  unfold idealBal npf_pmt
  rcases eq_or_lt_of_le hr with h0 | hpos
  · rw [if_pos h0.symm, ← h0]
    have hn' : (n : ℚ) ≠ 0 := Nat.cast_ne_zero.mpr hn
    have hsum : ∑ k ∈ Finset.range n, ((1 : ℚ) + 0) ^ k = n := by simp
    rw [hsum]
    have h1 : ((1 : ℚ) + 0) ^ n = 1 := by norm_num
    rw [h1, one_mul]
    have hexp : (L / n + extra) * n = L + extra * n := by
      field_simp
    rw [hexp]
    have hen : 0 ≤ extra * (n : ℚ) := mul_nonneg he (Nat.cast_nonneg n)
    linarith
  · have hrne : rate ≠ 0 := ne_of_gt hpos
    rw [if_neg hrne]
    have hx1 : (1 : ℚ) < 1 + rate := by linarith
    have hxpow : (1 : ℚ) < (1 + rate) ^ n := one_lt_pow hx1 hn
    have hden : (0 : ℚ) < (1 + rate) ^ n - 1 := by linarith
    have hgeom : ∑ k ∈ Finset.range n, (1 + rate) ^ k = ((1 + rate) ^ n - 1) / rate := by
      rw [geom_sum_eq (by intro h; rw [h] at hx1; exact lt_irrefl 1 hx1) n]
      congr 1
      ring
    rw [hgeom]
    have hmain : L * rate * (1 + rate) ^ n / ((1 + rate) ^ n - 1) *
        (((1 + rate) ^ n - 1) / rate) = L * (1 + rate) ^ n := by
      field_simp
      ring
    have hextra : (0 : ℚ) ≤ extra * (((1 + rate) ^ n - 1) / rate) :=
      mul_nonneg he (div_nonneg (by linarith) (le_of_lt hpos))
    nlinarith [hmain]

/-- The annuity payment covers at least the first month's interest:
`L·rate ≤ pmt`. -/
theorem npf_pmt_ge (L rate : ℚ) (n : ℕ) (hL : 0 < L) (hr : 0 ≤ rate) (hn : n ≠ 0) :
    L * rate ≤ npf_pmt rate n L := by
  unfold npf_pmt
  rcases eq_or_lt_of_le hr with h0 | hpos
  · rw [if_pos h0.symm, ← h0]
    have hnp : (0 : ℚ) < n := by
      exact_mod_cast Nat.pos_of_ne_zero hn
    rw [mul_zero]
    exact le_of_lt (div_pos hL hnp)
  · have hrne : rate ≠ 0 := ne_of_gt hpos
    rw [if_neg hrne]
    have hx1 : (1 : ℚ) < 1 + rate := by linarith
    have hxpow : (1 : ℚ) < (1 + rate) ^ n := one_lt_pow hx1 hn
    have hden : (0 : ℚ) < (1 + rate) ^ n - 1 := by linarith
    rw [le_div_iff hden]
    have hLr : 0 < L * rate := mul_pos hL hpos
    nlinarith

/-- Entry bounds and monotonicity of the amortization loop: as long as the
payment covers the interest on any balance up to `B`, every recorded
interest, principal and balance is nonnegative and the balance sequence,
prefixed with the starting balance, is non-increasing. -/
theorem amortRun_bounds (payment extra rate B : ℚ) (hr : 0 ≤ rate)
    (hq : B * rate ≤ payment + extra) :
    ∀ (fuel m : ℕ) (bal : ℚ), 0 < bal → bal ≤ B →
      (∀ e ∈ amortRun payment extra rate fuel m bal,
        0 ≤ e.interest ∧ 0 ≤ e.principal ∧ 0 ≤ e.balance) ∧
      List.Chain' (fun x y => y ≤ x)
        (bal :: (amortRun payment extra rate fuel m bal).map AmortEntry.balance)
  | 0, _, bal, hpos, hB => by
    simp [amortRun]
  | fuel + 1, m, bal, hpos, hB => by
    have hint : 0 ≤ bal * rate := mul_nonneg (le_of_lt hpos) hr
    have hprin : 0 ≤ payment + extra - bal * rate := by nlinarith
    simp only [amortRun]
    split_ifs with hcap hstop
    · refine ⟨?_, ?_⟩
      · intro e he
        simp only [List.mem_singleton] at he
        subst he
        exact ⟨hint, le_of_lt hpos, le_rfl⟩
      · simp only [List.map_cons, List.map_nil]
        exact List.chain'_cons.mpr ⟨le_of_lt hpos, List.chain'_singleton _⟩
    · push_neg at hcap
      refine ⟨?_, ?_⟩
      · intro e he
        simp only [List.mem_singleton] at he
        subst he
        exact ⟨hint, hprin, by linarith⟩
      · simp only [List.map_cons, List.map_nil]
        exact List.chain'_cons.mpr ⟨by linarith, List.chain'_singleton _⟩
    · push_neg at hcap hstop
      have hstep : bal - (payment + extra - bal * rate) ≤ bal := by linarith
      have ih := amortRun_bounds payment extra rate B hr hq fuel (m + 1)
        (bal - (payment + extra - bal * rate)) hstop (le_trans hstep hB)
      refine ⟨?_, ?_⟩
      · intro e he
        rcases List.mem_cons.mp he with he | he
        · subst he
          exact ⟨hint, hprin, le_of_lt hstop⟩
        · exact ih.1 e he
      · simp only [List.map_cons]
        exact List.chain'_cons.mpr ⟨hstep, ih.2⟩

/-- When its four validations pass, the schedule generator succeeds with
`buildSchedule`. -/
theorem generate_ok (L r : ℚ) (T : ℕ) (ex : ℚ) (hL : 0 < L) (hr : 0 ≤ r) (hT : T ≠ 0)
    (he : 0 ≤ ex) :
    generate_mortgage_amortization_schedule L r T ex = .ok (buildSchedule L r T ex) := by
  unfold generate_mortgage_amortization_schedule
  rw [if_neg (not_le.mpr hL), if_neg (not_lt.mpr hr), if_neg hT, if_neg (not_lt.mpr he)]

/-! ## Claim theorems: amortization (C3, C4) -/

/-- C3 (confirmed): for every valid amortization input (loan `L > 0`,
annual rate `r ≥ 0`, term `T > 0` years, extra monthly payment `≥ 0`,
monthly payment given by the standard annuity formula), the sum of the
principal portions over all schedule entries equals the original loan
amount `L`, independent of `r`. -/
theorem claim_C3 (L r ex : ℚ) (T : ℕ) (hL : 0 < L) (hr : 0 ≤ r) (hT : 1 ≤ T)
    (he : 0 ≤ ex) :
    ∃ s, generate_mortgage_amortization_schedule L r T ex = .ok s ∧
      s.principal.sum = L := by
  have hT0 : T ≠ 0 := by omega
  have hn : T * 12 ≠ 0 := by omega
  have hr12 : 0 ≤ r / 12 := div_nonneg hr (by norm_num)
  refine ⟨buildSchedule L r T ex, generate_ok L r T ex hL hr hT0 he, ?_⟩
  show ((amortRun (npf_pmt (r / 12) (T * 12) L) ex (r / 12) (T * 12) 1 L).map
      AmortEntry.principal).sum = L
  have hideal := idealBal_npf_pmt L (r / 12) (T * 12) ex hL hr12 hn he
  have hzero := amortRun_lastBalance_zero (npf_pmt (r / 12) (T * 12) L) ex (r / 12)
    (T * 12) 1 L hL hideal
  have hsum := amortRun_sum_balance (npf_pmt (r / 12) (T * 12) L) ex (r / 12) (T * 12) 1 L
  linarith

/-- C3 witness: at `L = 120`, `r = 0`, `T = 1`, `extra = 0` the schedule
is produced and its principal portions sum to `120`. -/
theorem claim_C3_witness :
    ∃ s, generate_mortgage_amortization_schedule 120 0 1 0 = .ok s ∧
      s.principal.sum = 120 :=
  claim_C3 120 0 0 1 (by norm_num) le_rfl le_rfl le_rfl

/-- C4 (confirmed): for every valid amortization input, the schedule has
at most `12·T` entries, the balance column is non-increasing and never
negative, and the final entry's balance is exactly zero. -/
theorem claim_C4 (L r ex : ℚ) (T : ℕ) (hL : 0 < L) (hr : 0 ≤ r) (hT : 1 ≤ T)
    (he : 0 ≤ ex) :
    ∃ s, generate_mortgage_amortization_schedule L r T ex = .ok s ∧
      s.balance.length ≤ 12 * T ∧
      List.Chain' (fun x y => y ≤ x) s.balance ∧
      (∀ x ∈ s.balance, 0 ≤ x) ∧
      s.balance.getLast? = some 0 := by
  have hT0 : T ≠ 0 := by omega
  have hn : T * 12 ≠ 0 := by omega
  have hr12 : 0 ≤ r / 12 := div_nonneg hr (by norm_num)
  have hq : L * (r / 12) ≤ npf_pmt (r / 12) (T * 12) L + ex := by
    have := npf_pmt_ge L (r / 12) (T * 12) hL hr12 hn
    linarith
  have hrun := amortRun_bounds (npf_pmt (r / 12) (T * 12) L) ex (r / 12) L hr12 hq
    (T * 12) 1 L hL le_rfl
  have hideal := idealBal_npf_pmt L (r / 12) (T * 12) ex hL hr12 hn he
  have hzero := amortRun_lastBalance_zero (npf_pmt (r / 12) (T * 12) L) ex (r / 12)
    (T * 12) 1 L hL hideal
  have hlen := amortRun_length (npf_pmt (r / 12) (T * 12) L) ex (r / 12) (T * 12) 1 L
  refine ⟨buildSchedule L r T ex, generate_ok L r T ex hL hr hT0 he, ?_, ?_, ?_, ?_⟩
  · show ((amortRun (npf_pmt (r / 12) (T * 12) L) ex (r / 12) (T * 12) 1 L).map
      AmortEntry.balance).length ≤ 12 * T
    rw [List.length_map]
    omega
  · show List.Chain' (fun x y => y ≤ x)
      ((amortRun (npf_pmt (r / 12) (T * 12) L) ex (r / 12) (T * 12) 1 L).map
        AmortEntry.balance)
    exact hrun.2.tail
  · show ∀ x ∈ (amortRun (npf_pmt (r / 12) (T * 12) L) ex (r / 12) (T * 12) 1 L).map
      AmortEntry.balance, 0 ≤ x
    intro x hx
    obtain ⟨e, he', rfl⟩ := List.mem_map.mp hx
    exact (hrun.1 e he').2.2
  · show ((amortRun (npf_pmt (r / 12) (T * 12) L) ex (r / 12) (T * 12) 1 L).map
      AmortEntry.balance).getLast? = some 0
    have hne : amortRun (npf_pmt (r / 12) (T * 12) L) ex (r / 12) (T * 12) 1 L ≠ [] := by
      intro hnil
      rw [hnil] at hzero
      simp only [lastBalance] at hzero
      exact absurd hzero (ne_of_gt hL)
    rw [getLast?_map_balance _ L hne, hzero]

/-- C4 witness: at `L = 120`, `r = 0`, `T = 1`, `extra = 0` the schedule
has at most 12 entries, a non-increasing nonnegative balance column, and
final balance zero. -/
theorem claim_C4_witness :
    ∃ s, generate_mortgage_amortization_schedule 120 0 1 0 = .ok s ∧
      s.balance.length ≤ 12 * 1 ∧
      List.Chain' (fun x y => y ≤ x) s.balance ∧
      (∀ x ∈ s.balance, 0 ≤ x) ∧
      s.balance.getLast? = some 0 :=
  claim_C4 120 0 0 1 (by norm_num) le_rfl le_rfl le_rfl

/-! ## BTC-side helper lemmas -/

/-- The per-record tax amount accumulated by the fold inside
`adjust_btc_for_tax` (`0` for records skipped by the `continue` or the
`gain > 0` test). -/
def srcRecordTax (sim : BTCSimulationResult) (cgt_rate : ℚ) (year : ℕ)
    (r : ContributionRecord) : ℚ :=
  if year ≤ r.year_invested then 0
  else
    let gain := r.investment / priceAtRecord sim r.year_invested *
      sim.btc_prices.getD (year - 1) 0 - r.investment
    if 0 < gain then
      gain * cgt_rate * (if r.year_invested + 1 < year then (1 : ℚ) / 2 else 1)
    else 0

/-- Element `k` of `adjust_btc_for_tax`: current value minus the sum of
the per-record taxes. -/
theorem adjust_btc_for_tax_getD (sim : BTCSimulationResult) (rec : List ContributionRecord)
    (cgt_rate : ℚ) {k : ℕ} (hk : k < sim.years) :
    (adjust_btc_for_tax sim rec cgt_rate).getD k 0 =
      sim.btc_holdings.getD k 0 * sim.btc_prices.getD k 0 -
        (rec.map (srcRecordTax sim cgt_rate (k + 1))).sum := by
  unfold adjust_btc_for_tax
  rw [listGetD_range_map _ _ hk]
  simp only [Nat.add_sub_cancel]
  congr 1
  calc rec.foldl _ 0
      = 0 + (rec.map (srcRecordTax sim cgt_rate (k + 1))).sum := by
        refine list_foldl_add_of _ _ (fun a r => ?_) rec 0
        simp only [srcRecordTax, Nat.add_sub_cancel]
        split_ifs <;> ring
    _ = (rec.map (srcRecordTax sim cgt_rate (k + 1))).sum := zero_add _

/-- The fold's per-record tax coincides with the spec's formula
(`max(0, gain)` and holding-period condition `t - y > 1`). -/
theorem srcRecordTax_eq_spec (sim : BTCSimulationResult) (cgt_rate : ℚ) (t : ℕ)
    (r : ContributionRecord) :
    srcRecordTax sim cgt_rate t r = specRecordTax sim cgt_rate t r := by
  simp only [srcRecordTax, specRecordTax]
  rcases le_or_lt t r.year_invested with h | h
  · rw [if_pos h, if_neg (not_lt.mpr h)]
  · rw [if_neg (not_le.mpr h), if_pos h]
    have hd : (r.year_invested + 1 < t) ↔ (1 < t - r.year_invested) := by omega
    set g := r.investment / priceAtRecord sim r.year_invested *
      sim.btc_prices.getD (t - 1) 0 - r.investment with hgdef
    rcases le_or_lt g 0 with hg0 | hg0
    · rw [if_neg (not_lt.mpr hg0), max_eq_left hg0, zero_mul, zero_mul]
    · rw [if_pos hg0, max_eq_right (le_of_lt hg0)]
      congr 1
      exact if_congr hd rfl rfl

/-- When its validations pass, the BTC simulator succeeds with
`btcResult`. -/
theorem simulate_btc_investments_ok (inv : BTCInvestment)
    (h1 : inv.annual_investment_amounts.length = inv.years)
    (h2 : inv.annual_growth_rates.length = inv.years)
    (h3 : 0 < inv.initial_btc_price) (h4 : 0 ≤ inv.initial_investment)
    (h5 : ∀ r ∈ inv.annual_growth_rates, -1 ≤ r)
    (h6 : ∀ a ∈ inv.annual_investment_amounts, 0 ≤ a) :
    simulate_btc_investments inv = .ok (btcResult inv) := by
  unfold simulate_btc_investments
  rw [if_neg (by simp [h1]), if_neg (by simp [h2]), if_neg (not_le.mpr h3),
    if_neg (not_lt.mpr h4), if_neg ?_, if_neg ?_]
  · push_neg
    intro a ha
    exact h6 a ha
  · push_neg
    intro r hr
    exact h5 r hr

/-! ## Claim theorem: C2 (per-entry CGT formula) -/

/-- C2 (confirmed): for every year `t` of the tax adjustment applied to a
simulator result, and every ledger, the after-tax value at year `t`
equals the raw nominal value minus the sum over ledger entries of
`max(0, (amount / price_at_year(y)) * price_t - amount) * cgt_rate`,
discounted by `0.5` exactly when `t - y > 1` (full rate when `t - y = 1`),
with entries of year `y ≥ t` (in particular same-year ones) contributing
nothing and per-entry losses floored at `0`. -/
theorem claim_C2 (inv : BTCInvestment) (res : BTCSimulationResult)
    (rec : List ContributionRecord) (cgt_rate : ℚ) (t : ℕ)
    (hok : simulate_btc_investments inv = .ok res) (ht1 : 1 ≤ t) (ht2 : t ≤ res.years) :
    (adjust_btc_for_tax res rec cgt_rate).getD (t - 1) 0 =
      res.btc_values.getD (t - 1) 0 -
        (rec.map (specRecordTax res cgt_rate t)).sum := by
  have hres : res = btcResult inv := by
    unfold simulate_btc_investments at hok
    split_ifs at hok <;>
      first
        | exact Except.noConfusion hok
        | exact ((Except.ok.injEq _ _).mp hok).symm
  subst hres
  rw [show (btcResult inv).years = inv.years from rfl] at ht2
  have hk : t - 1 < (btcResult inv).years := by
    rw [show (btcResult inv).years = inv.years from rfl]
    omega
  rw [adjust_btc_for_tax_getD _ rec cgt_rate hk]
  have ht : t - 1 + 1 = t := by omega
  rw [ht]
  have hvalue : (btcResult inv).btc_values.getD (t - 1) 0 =
      btcHoldingsAt inv t * btcPriceAt inv t := by
    show ((List.range inv.years).map fun k =>
      btcHoldingsAt inv (k + 1) * btcPriceAt inv (k + 1)).getD (t - 1) 0 = _
    rw [listGetD_range_map _ _ (by omega : t - 1 < inv.years), ht]
  have hhold : (btcResult inv).btc_holdings.getD (t - 1) 0 = btcHoldingsAt inv t := by
    show ((List.range inv.years).map fun k => btcHoldingsAt inv (k + 1)).getD (t - 1) 0 = _
    rw [listGetD_range_map _ _ (by omega : t - 1 < inv.years), ht]
  have hprice : (btcResult inv).btc_prices.getD (t - 1) 0 = btcPriceAt inv t := by
    show ((List.range inv.years).map fun k => btcPriceAt inv (k + 1)).getD (t - 1) 0 = _
    rw [listGetD_range_map _ _ (by omega : t - 1 < inv.years), ht]
  rw [hvalue, hhold, hprice]
  congr 1
  congr 1
  rw [funext fun r => srcRecordTax_eq_spec (btcResult inv) cgt_rate t r]

/-- C2 witness: a concrete two-year scenario (initial 100 at price 100,
growth 100% then 0%, CGT 20%) instantiating the per-entry formula at
year `t = 2`. -/
theorem claim_C2_witness :
    (adjust_btc_for_tax (btcResult ⟨100, 100, [0, 0], [1, 0], 2⟩)
        (investments_record ⟨100, 100, [0, 0], [1, 0], 2⟩) (1 / 5)).getD (2 - 1) 0 =
      (btcResult ⟨100, 100, [0, 0], [1, 0], 2⟩).btc_values.getD (2 - 1) 0 -
        ((investments_record ⟨100, 100, [0, 0], [1, 0], 2⟩).map
          (specRecordTax (btcResult ⟨100, 100, [0, 0], [1, 0], 2⟩) (1 / 5) 2)).sum :=
  claim_C2 ⟨100, 100, [0, 0], [1, 0], 2⟩ _ _ (1 / 5) 2
    (simulate_btc_investments_ok _ (by decide) (by decide) (by norm_num) (by norm_num)
      (by decide) (by decide))
    (by norm_num) (by decide)

/-! ## Claim C5 (inflation-adjustment guard) -/

/-- C5 counterexample: the claim says `inflation_rate ≤ -1` fails with
`InvalidInput`, but at rate exactly `-1` (year 1) the source's strict
`< -1` check passes and the value is returned unchanged. -/
theorem claim_C5_counterexample : adjust_for_inflation 5 (-1) 1 = .ok 5 := by
  norm_num [adjust_for_inflation]

/-- C5 (corrected): `adjust_for_inflation` fails with `InvalidInput`
exactly when `inflation_rate < -1` (strictly) or `year < 1`; for
`inflation_rate > -1` and `year ≥ 1` it returns
`value / (1+inflation_rate)^(year-1)` (year 1 returns the value
unchanged); rate exactly `-1` is accepted by the validation, returning
the value at `year = 1` and failing with a division-by-zero runtime
error, not `InvalidInput`, for `year ≥ 2`. -/
theorem claim_C5_amended (value rate : ℚ) (year : ℤ) :
    ((rate < -1 ∨ year < 1) → adjust_for_inflation value rate year = .error .invalidInput) ∧
    (-1 < rate → 1 ≤ year →
      adjust_for_inflation value rate year = .ok (value / (1 + rate) ^ (year - 1).toNat)) ∧
    (rate = -1 → year = 1 → adjust_for_inflation value rate year = .ok value) ∧
    (rate = -1 → 2 ≤ year →
      adjust_for_inflation value rate year = .error .divisionByZero) := by
  refine ⟨?_, ?_, ?_, ?_⟩
  · intro h
    simp only [adjust_for_inflation]
    rcases h with h | h
    · rw [if_pos h]
    · rcases lt_or_le rate (-1) with h2 | h2
      · rw [if_pos h2]
      · rw [if_neg (not_lt.mpr h2), if_pos h]
  · intro h1 h2
    have hne : ((1 : ℚ) + rate) ^ (year - 1).toNat ≠ 0 := pow_ne_zero _ (by linarith)
    simp only [adjust_for_inflation]
    rw [if_neg (by linarith : ¬rate < -1), if_neg (not_lt.mpr h2), if_neg hne]
  · intro h1 h2
    subst h1 h2
    simp only [adjust_for_inflation]
    norm_num
  · intro h1 h2
    subst h1
    have hk : (year - 1).toNat ≠ 0 := by omega
    have hbase : ((1 : ℚ) + -1) = 0 := by norm_num
    have hdenom : ((1 : ℚ) + -1) ^ (year - 1).toNat = 0 := by
      rw [hbase]
      exact zero_pow hk
    simp only [adjust_for_inflation]
    rw [if_neg (by norm_num), if_neg (by omega), if_pos hdenom]

/-- C5 witness: a strictly admissible input (`rate = 1/2`, `year = 3`)
goes through the formula branch. -/
theorem claim_C5_witness :
    adjust_for_inflation 7 (1 / 2) 3 = .ok (7 / ((1 : ℚ) + 1 / 2) ^ ((3 : ℤ) - 1).toNat) :=
  (claim_C5_amended 7 (1 / 2) 3).2.1 (by norm_num) (by norm_num)

/-! ## Claim C6 (CGT-rate validation) -/

/-- `adjust_btc_for_tax` always returns one entry per simulated year. -/
theorem adjust_btc_for_tax_length (sim : BTCSimulationResult)
    (rec : List ContributionRecord) (cgt_rate : ℚ) :
    (adjust_btc_for_tax sim rec cgt_rate).length = sim.years := by
  unfold adjust_btc_for_tax
  rw [List.length_map, List.length_range]

/-- The checked ledger fold either succeeds or raises division-by-zero;
no other outcome exists. -/
theorem taxFoldChecked_ok_or (sim : BTCSimulationResult) (cgt_rate : ℚ) (year : ℕ) :
    ∀ (l : List ContributionRecord) (acc : ℚ),
      (∃ v, taxFoldChecked sim cgt_rate year l acc = .ok v) ∨
        taxFoldChecked sim cgt_rate year l acc = .error .divisionByZero
  | [], acc => .inl ⟨acc, rfl⟩
  | r :: rs, acc => by
    simp only [taxFoldChecked]
    split_ifs with h1 h2 h3 h4
    · exact taxFoldChecked_ok_or sim cgt_rate year rs acc
    · exact .inr rfl
    · exact taxFoldChecked_ok_or sim cgt_rate year rs _
    · exact taxFoldChecked_ok_or sim cgt_rate year rs _
    · exact taxFoldChecked_ok_or sim cgt_rate year rs _

/-- The checked ledger fold raises exactly when some non-skipped record
was purchased at price `0`; the condition mentions neither the CGT rate
nor the accumulator. -/
theorem taxFoldChecked_error_iff (sim : BTCSimulationResult) (cgt_rate : ℚ) (year : ℕ) :
    ∀ (l : List ContributionRecord) (acc : ℚ),
      taxFoldChecked sim cgt_rate year l acc = .error .divisionByZero ↔
        ∃ r ∈ l, r.year_invested < year ∧ priceAtRecord sim r.year_invested = 0
  | [], acc => by simp [taxFoldChecked]
  | r :: rs, acc => by
    simp only [taxFoldChecked]
    split_ifs with h1 h2 h3 h4
    · rw [taxFoldChecked_error_iff sim cgt_rate year rs acc]
      constructor
      · rintro ⟨x, hx, hxy, hxp⟩
        exact ⟨x, List.mem_cons_of_mem r hx, hxy, hxp⟩
      · rintro ⟨x, hx, hxy, hxp⟩
        rcases List.mem_cons.mp hx with rfl | hx
        · exact absurd hxy (by omega)
        · exact ⟨x, hx, hxy, hxp⟩
    · constructor
      · intro _
        exact ⟨r, List.mem_cons_self r rs, by omega, h2⟩
      · intro _
        rfl
    · rw [taxFoldChecked_error_iff sim cgt_rate year rs _]
      constructor
      · rintro ⟨x, hx, hxy, hxp⟩
        exact ⟨x, List.mem_cons_of_mem r hx, hxy, hxp⟩
      · rintro ⟨x, hx, hxy, hxp⟩
        rcases List.mem_cons.mp hx with rfl | hx
        · exact absurd hxp h2
        · exact ⟨x, hx, hxy, hxp⟩
    · rw [taxFoldChecked_error_iff sim cgt_rate year rs _]
      constructor
      · rintro ⟨x, hx, hxy, hxp⟩
        exact ⟨x, List.mem_cons_of_mem r hx, hxy, hxp⟩
      · rintro ⟨x, hx, hxy, hxp⟩
        rcases List.mem_cons.mp hx with rfl | hx
        · exact absurd hxp h2
        · exact ⟨x, hx, hxy, hxp⟩
    · rw [taxFoldChecked_error_iff sim cgt_rate year rs _]
      constructor
      · rintro ⟨x, hx, hxy, hxp⟩
        exact ⟨x, List.mem_cons_of_mem r hx, hxy, hxp⟩
      · rintro ⟨x, hx, hxy, hxp⟩
        rcases List.mem_cons.mp hx with rfl | hx
        · exact absurd hxp h2
        · exact ⟨x, hx, hxy, hxp⟩

/-- When the checked ledger fold succeeds, its value is the accumulator
plus the per-record taxes of the total model. -/
theorem taxFoldChecked_ok_eq (sim : BTCSimulationResult) (cgt_rate : ℚ) (year : ℕ) :
    ∀ (l : List ContributionRecord) (acc v : ℚ),
      taxFoldChecked sim cgt_rate year l acc = .ok v →
      v = acc + (l.map (srcRecordTax sim cgt_rate year)).sum
  | [], acc, v => by
    intro h
    simp only [taxFoldChecked, Except.ok.injEq] at h
    subst h
    simp
  | r :: rs, acc, v => by
    intro h
    simp only [taxFoldChecked] at h
    by_cases h1 : year ≤ r.year_invested
    · rw [if_pos h1] at h
      rw [List.map_cons, List.sum_cons,
        taxFoldChecked_ok_eq sim cgt_rate year rs acc v h]
      have hr0 : srcRecordTax sim cgt_rate year r = 0 := by
        simp only [srcRecordTax]
        rw [if_pos h1]
      rw [hr0]
      ring
    · rw [if_neg h1] at h
      by_cases h2 : priceAtRecord sim r.year_invested = 0
      · rw [if_pos h2] at h
        exact absurd h (by simp)
      · rw [if_neg h2] at h
        rw [List.map_cons, List.sum_cons,
          taxFoldChecked_ok_eq sim cgt_rate year rs _ v h]
        simp only [srcRecordTax]
        rw [if_neg h1]
        split_ifs with h3 h4 <;> ring

/-- The checked year loop either returns one value per year or raises
division-by-zero. -/
theorem adjustYearsChecked_ok_or (sim : BTCSimulationResult)
    (rec : List ContributionRecord) (cgt_rate : ℚ) :
    ∀ (n year : ℕ),
      (∃ l, adjustYearsChecked sim rec cgt_rate n year = .ok l ∧ l.length = n) ∨
        adjustYearsChecked sim rec cgt_rate n year = .error .divisionByZero
  | 0, year => .inl ⟨[], rfl, rfl⟩
  | n + 1, year => by
    rcases taxFoldChecked_ok_or sim cgt_rate year rec 0 with ⟨v, hv⟩ | hv
    · rcases adjustYearsChecked_ok_or sim rec cgt_rate n (year + 1) with ⟨l, hl, hlen⟩ | hl
      · refine .inl ⟨(sim.btc_holdings.getD (year - 1) 0 *
          sim.btc_prices.getD (year - 1) 0 - v) :: l, ?_, by simp [hlen]⟩
        simp only [adjustYearsChecked]
        rw [hv, hl]
      · refine .inr ?_
        simp only [adjustYearsChecked]
        rw [hv, hl]
    · refine .inr ?_
      simp only [adjustYearsChecked]
      rw [hv]

/-- Whether the checked year loop raises does not depend on the CGT
rate. -/
theorem adjustYearsChecked_error_indep (sim : BTCSimulationResult)
    (rec : List ContributionRecord) (c1 c2 : ℚ) :
    ∀ (n year : ℕ),
      adjustYearsChecked sim rec c1 n year = .error .divisionByZero →
      adjustYearsChecked sim rec c2 n year = .error .divisionByZero
  | 0, year => by
    intro h
    simp only [adjustYearsChecked] at h
    exact absurd h (by simp)
  | n + 1, year => by
    intro h
    simp only [adjustYearsChecked] at h ⊢
    rcases taxFoldChecked_ok_or sim c1 year rec 0 with ⟨v, hv⟩ | hv
    · rw [hv] at h
      rcases adjustYearsChecked_ok_or sim rec c1 n (year + 1) with ⟨l, hl, _⟩ | hl
      · rw [hl] at h
        exact absurd h (by simp)
      · have h2 := adjustYearsChecked_error_indep sim rec c1 c2 n (year + 1) hl
        rcases taxFoldChecked_ok_or sim c2 year rec 0 with ⟨w, hw⟩ | hw
        · rw [hw, h2]
        · rw [hw]
    · have hw : taxFoldChecked sim c2 year rec 0 = .error .divisionByZero := by
        rw [taxFoldChecked_error_iff]
        exact (taxFoldChecked_error_iff sim c1 year rec 0).mp hv
      rw [hw]

/-- A successful checked year loop returns, at index `k`, the current
value minus the per-record tax sum of year `year + k`. -/
theorem adjustYearsChecked_ok_getD (sim : BTCSimulationResult)
    (rec : List ContributionRecord) (cgt_rate : ℚ) :
    ∀ (n year : ℕ) (l : List ℚ),
      adjustYearsChecked sim rec cgt_rate n year = .ok l →
      l.length = n ∧ ∀ k, k < n → l.getD k 0 =
        sim.btc_holdings.getD (year + k - 1) 0 * sim.btc_prices.getD (year + k - 1) 0 -
          (rec.map (srcRecordTax sim cgt_rate (year + k))).sum
  | 0, year, l => by
    intro h
    simp only [adjustYearsChecked, Except.ok.injEq] at h
    subst h
    exact ⟨rfl, fun k hk => absurd hk (by omega)⟩
  | n + 1, year, l => by
    intro h
    simp only [adjustYearsChecked] at h
    rcases taxFoldChecked_ok_or sim cgt_rate year rec 0 with ⟨v, hv⟩ | hv
    · rw [hv] at h
      rcases adjustYearsChecked_ok_or sim rec cgt_rate n (year + 1) with ⟨l2, hl2, _⟩ | hl2
      · rw [hl2] at h
        have hcons := (Except.ok.injEq _ _).mp h
        obtain ⟨hlen2, hget2⟩ := adjustYearsChecked_ok_getD sim rec cgt_rate n (year + 1)
          l2 hl2
        have hv2 := taxFoldChecked_ok_eq sim cgt_rate year rec 0 v hv
        rw [zero_add] at hv2
        subst hcons
        refine ⟨by simp [hlen2], ?_⟩
        intro k hk
        cases k with
        | zero =>
          rw [List.getD_cons_zero, Nat.add_zero, hv2]
        | succ j =>
          rw [List.getD_cons_succ]
          have e : year + (j + 1) = year + 1 + j := by omega
          rw [e]
          exact hget2 j (by omega)
      · rw [hl2] at h
        exact absurd h (by simp)
    · rw [hv] at h
      exact absurd h (by simp)

/-- When the checked adjustment completes, it returns exactly the series
of the total-division model `adjust_btc_for_tax`. -/
theorem adjust_checked_ok_eq (sim : BTCSimulationResult)
    (rec : List ContributionRecord) (cgt_rate : ℚ) (l : List ℚ)
    (hl : adjust_btc_for_tax_checked sim rec cgt_rate = .ok l) :
    l = adjust_btc_for_tax sim rec cgt_rate := by
  unfold adjust_btc_for_tax_checked at hl
  obtain ⟨hlen, hget⟩ := adjustYearsChecked_ok_getD sim rec cgt_rate sim.years 1 l hl
  have hlen2 : l.length = (adjust_btc_for_tax sim rec cgt_rate).length := by
    rw [hlen, adjust_btc_for_tax_length]
  apply List.ext_get hlen2
  intro i h1 h2
  rw [← List.getD_eq_get _ 0 h1, ← List.getD_eq_get _ 0 h2]
  have hi : i < sim.years := by
    rw [hlen] at h1
    exact h1
  rw [hget i hi, adjust_btc_for_tax_getD sim rec cgt_rate hi]
  have e1 : 1 + i - 1 = i := by omega
  have e2 : 1 + i = i + 1 := by omega
  rw [e1, e2]

/-- C6 counterexample: at CGT rate `2` (outside `[0,1]`) the tax
adjustment, modelled with Python's runtime division semantics, does not
fail: it returns a complete series on a concrete one-year simulation (a
100% gain taxed at 200% yields `[0]`). -/
theorem claim_C6_counterexample :
    simulate_btc_investments ⟨100, 100, [0], [1], 1⟩ =
      .ok (btcResult ⟨100, 100, [0], [1], 1⟩) ∧
    adjust_btc_for_tax_checked (btcResult ⟨100, 100, [0], [1], 1⟩)
      (investments_record ⟨100, 100, [0], [1], 1⟩) 2 = .ok [0] ∧
    ¬((2 : ℚ) ≤ 1) :=
  ⟨simulate_btc_investments_ok _ (by decide) (by decide) (by norm_num) (by norm_num)
      (by decide) (by decide),
   by with_unfolding_all rfl, by norm_num⟩

/-- C6 (corrected): `adjust_btc_for_tax` performs no validation of the
CGT rate, and whether it fails never depends on that rate: on any input
it either returns a complete series with one entry per simulated year
(equal to the total-division model's output) or raises the
division-by-zero runtime error — triggered, for every rate alike, by a
ledger entry purchased at price `0` (reachable via a `-100%` growth
rate) — and it never raises `InvalidInput`; in particular rates outside
`[0,1]` are not rejected. -/
theorem claim_C6_amended (sim : BTCSimulationResult) (rec : List ContributionRecord)
    (cgt_rate cgt_rate2 : ℚ) :
    adjust_btc_for_tax_checked sim rec cgt_rate ≠ .error .invalidInput ∧
    ((∃ l, adjust_btc_for_tax_checked sim rec cgt_rate = .ok l ∧ l.length = sim.years) ∨
      adjust_btc_for_tax_checked sim rec cgt_rate = .error .divisionByZero) ∧
    (adjust_btc_for_tax_checked sim rec cgt_rate = .error .divisionByZero →
      adjust_btc_for_tax_checked sim rec cgt_rate2 = .error .divisionByZero) ∧
    (∀ l, adjust_btc_for_tax_checked sim rec cgt_rate = .ok l →
      l = adjust_btc_for_tax sim rec cgt_rate) := by
  refine ⟨?_, ?_, ?_, fun l hl => adjust_checked_ok_eq sim rec cgt_rate l hl⟩
  · intro h
    unfold adjust_btc_for_tax_checked at h
    rcases adjustYearsChecked_ok_or sim rec cgt_rate sim.years 1 with ⟨l, hl, _⟩ | hl
    · rw [hl] at h
      exact absurd h (by simp)
    · rw [hl] at h
      exact absurd h (by simp)
  · unfold adjust_btc_for_tax_checked
    exact adjustYearsChecked_ok_or sim rec cgt_rate sim.years 1
  · intro h
    unfold adjust_btc_for_tax_checked at h ⊢
    exact adjustYearsChecked_error_indep sim rec cgt_rate cgt_rate2 sim.years 1 h

/-- C6 witness: on the reviewer-style zero-price input
(`BTCInvestment(0, 100, [0,0], [-1,0], 2)`) the checked adjustment
raises division-by-zero at one rate, hence at any other; and on a clean
one-year input the checked result at rate `2` equals the total model's
series. -/
theorem claim_C6_witness :
    adjust_btc_for_tax_checked (btcResult ⟨0, 100, [0, 0], [-1, 0], 2⟩)
      (investments_record ⟨0, 100, [0, 0], [-1, 0], 2⟩) 5 = .error .divisionByZero ∧
    [0] = adjust_btc_for_tax (btcResult ⟨100, 100, [0], [1], 1⟩)
      (investments_record ⟨100, 100, [0], [1], 1⟩) 2 :=
  ⟨(claim_C6_amended (btcResult ⟨0, 100, [0, 0], [-1, 0], 2⟩)
      (investments_record ⟨0, 100, [0, 0], [-1, 0], 2⟩) 2 5).2.2.1
      (by with_unfolding_all rfl),
   (claim_C6_amended (btcResult ⟨100, 100, [0], [1], 1⟩)
      (investments_record ⟨100, 100, [0], [1], 1⟩) 2 0).2.2.2 [0]
      (by with_unfolding_all rfl)⟩

/-! ## Claim C7 (growth-rate / price-positivity guard) -/

/-- C7 counterexample: a growth rate of exactly `-100%` (so `price_1 = 0
≤ 0`) is not rejected: the simulator accepts it and returns a result
whose year-1 price is `≤ 0` (the guarded division records `0` units
purchased instead of failing). -/
theorem claim_C7_counterexample :
    simulate_btc_investments ⟨0, 100, [0], [-1], 1⟩ =
      .ok (btcResult ⟨0, 100, [0], [-1], 1⟩) ∧
    (btcResult ⟨0, 100, [0], [-1], 1⟩).btc_prices.getD 0 0 ≤ 0 := by
  constructor
  · exact simulate_btc_investments_ok _ (by decide) (by decide) (by norm_num) le_rfl
      (by decide) (by decide)
  · have h : (btcResult ⟨0, 100, [0], [-1], 1⟩).btc_prices.getD 0 0 =
        btcPriceAt ⟨0, 100, [0], [-1], 1⟩ (0 + 1) := by
      show ((List.range 1).map fun k => btcPriceAt ⟨0, 100, [0], [-1], 1⟩ (k + 1)).getD 0 0 = _
      rw [listGetD_range_map _ _ (by norm_num : (0 : ℕ) < 1)]
    rw [h]
    simp only [btcPriceAt]
    norm_num

/-- C7 (corrected): the simulator fails with `InvalidInput` exactly for
growth rates strictly below `-100%`; a rate of exactly `-100%` passes
validation, producing a zero price, and the units purchased in year `t`
are `contribution_t / price_t` when `price_t > 0` and `0` otherwise (the
source guards the division instead of failing). -/
theorem claim_C7_amended (inv : BTCInvestment) :
    ((inv.annual_investment_amounts.length = inv.years ∧
      inv.annual_growth_rates.length = inv.years ∧
      0 < inv.initial_btc_price ∧ 0 ≤ inv.initial_investment ∧
      (∃ r ∈ inv.annual_growth_rates, r < -1)) →
      simulate_btc_investments inv = .error .invalidInput) ∧
    ((inv.annual_investment_amounts.length = inv.years ∧
      inv.annual_growth_rates.length = inv.years ∧
      0 < inv.initial_btc_price ∧ 0 ≤ inv.initial_investment ∧
      (∀ r ∈ inv.annual_growth_rates, -1 ≤ r) ∧
      (∀ a ∈ inv.annual_investment_amounts, 0 ≤ a)) →
      simulate_btc_investments inv = .ok (btcResult inv) ∧
      ∀ k, k < inv.years →
        (btcResult inv).btc_holdings.getD k 0 =
          (if k = 0 then inv.initial_investment / inv.initial_btc_price
           else (btcResult inv).btc_holdings.getD (k - 1) 0) +
          (if 0 < (btcResult inv).btc_prices.getD k 0 then
            inv.annual_investment_amounts.getD k 0 / (btcResult inv).btc_prices.getD k 0
           else 0)) := by
  constructor
  · rintro ⟨h1, h2, h3, h4, h5⟩
    unfold simulate_btc_investments
    rw [if_neg (by simp [h1]), if_neg (by simp [h2]), if_neg (not_le.mpr h3),
      if_neg (not_lt.mpr h4), if_pos h5]
  · rintro ⟨h1, h2, h3, h4, h5, h6⟩
    refine ⟨simulate_btc_investments_ok inv h1 h2 h3 h4 h5 h6, ?_⟩
    intro k hk
    have hhold : ∀ j, j < inv.years →
        (btcResult inv).btc_holdings.getD j 0 = btcHoldingsAt inv (j + 1) := by
      intro j hj
      show ((List.range inv.years).map fun i => btcHoldingsAt inv (i + 1)).getD j 0 = _
      rw [listGetD_range_map _ _ hj]
    have hprice : (btcResult inv).btc_prices.getD k 0 = btcPriceAt inv (k + 1) := by
      show ((List.range inv.years).map fun i => btcPriceAt inv (i + 1)).getD k 0 = _
      rw [listGetD_range_map _ _ hk]
    rw [hhold k hk, hprice]
    cases k with
    | zero =>
      rw [if_pos rfl]
      simp only [btcHoldingsAt]
    | succ j =>
      rw [if_neg (Nat.succ_ne_zero j), Nat.succ_sub_one, hhold j (by omega)]
      simp only [btcHoldingsAt]

/-- C7 witness: a rate strictly below `-100%` is rejected, and a valid
input yields the canonical result. -/
theorem claim_C7_witness :
    simulate_btc_investments ⟨0, 100, [0], [-2], 1⟩ = .error .invalidInput ∧
    simulate_btc_investments ⟨100, 100, [50], [1], 1⟩ =
      .ok (btcResult ⟨100, 100, [50], [1], 1⟩) := by
  constructor
  · exact (claim_C7_amended ⟨0, 100, [0], [-2], 1⟩).1
      ⟨by decide, by decide, by norm_num, le_rfl, ⟨-2, by decide, by norm_num⟩⟩
  · exact ((claim_C7_amended ⟨100, 100, [50], [1], 1⟩).2
      ⟨by decide, by decide, by norm_num, by norm_num, by decide, by decide⟩).1

/-! ## Claim C8 (deposit vs price acceptance) -/

/-- When the other validations pass and the deposit is strictly below the
price, `simulate_house_investment` succeeds with the canonical result for
the surcharge-free loan `price - deposit`. -/
theorem simulate_house_ok (hp : HousePurchase) (hprice : 0 < hp.house_price)
    (hdep : 0 ≤ hp.deposit) (hmr : 0 ≤ hp.mortgage_interest_rate)
    (hg : 0 ≤ hp.annual_house_growth_rate) (hc : 0 ≤ hp.annual_property_costs)
    (hinf : -1 ≤ hp.inflation_rate) (hT : 1 ≤ hp.mortgage_term_years)
    (hdp : hp.deposit < hp.house_price) :
    simulate_house_investment hp =
      .ok (houseDetails hp (buildSchedule (hp.house_price - hp.deposit)
        hp.mortgage_interest_rate hp.mortgage_term_years 0)) := by
  simp only [simulate_house_investment]
  rw [if_neg (not_le.mpr hprice), if_neg (not_lt.mpr hdep), if_neg (not_lt.mpr hmr),
    if_neg (not_lt.mpr hg), if_neg (not_lt.mpr hc), if_neg (not_lt.mpr hinf),
    if_neg (by linarith : ¬hp.house_price - hp.deposit < 0),
    generate_ok _ _ _ _ (by linarith) hmr (by omega) le_rfl]

/-- C8 counterexample: with deposit equal to the house price (loan `0`)
the simulation does not return a complete result: the zero loan is
rejected inside the amortization generator. -/
theorem claim_C8_counterexample :
    simulate_house_investment ⟨100, 100, 0, 0, 1, 1, 0, 0⟩ = .error .invalidInput := by
  have hgen : generate_mortgage_amortization_schedule ((100 : ℚ) - 100) 0 1 0 =
      .error .invalidInput := by
    unfold generate_mortgage_amortization_schedule
    rw [if_pos (by norm_num : (100 : ℚ) - 100 ≤ 0)]
  simp only [simulate_house_investment]
  rw [if_neg (by norm_num), if_neg (by norm_num), if_neg (by norm_num),
    if_neg (by norm_num), if_neg (by norm_num), if_neg (by norm_num),
    if_neg (by norm_num : ¬((100 : ℚ) - 100 < 0)), hgen]

/-- C8 (corrected): with the other validations passing,
`simulate_house_investment` fails with `InvalidInput` both when the
deposit exceeds the house price (its own check) and when the deposit
equals the house price (the zero loan is rejected by the amortization
generator's `loan_amount ≤ 0` check); only a strictly positive loan
`price - deposit > 0` is accepted and returns a complete result. -/
theorem claim_C8_amended (hp : HousePurchase) (hprice : 0 < hp.house_price)
    (hdep : 0 ≤ hp.deposit) (hmr : 0 ≤ hp.mortgage_interest_rate)
    (hg : 0 ≤ hp.annual_house_growth_rate) (hc : 0 ≤ hp.annual_property_costs)
    (hinf : -1 ≤ hp.inflation_rate) (hT : 1 ≤ hp.mortgage_term_years) :
    (hp.house_price < hp.deposit →
      simulate_house_investment hp = .error .invalidInput) ∧
    (hp.deposit = hp.house_price →
      simulate_house_investment hp = .error .invalidInput) ∧
    (hp.deposit < hp.house_price →
      simulate_house_investment hp =
        .ok (houseDetails hp (buildSchedule (hp.house_price - hp.deposit)
          hp.mortgage_interest_rate hp.mortgage_term_years 0))) := by
  refine ⟨?_, ?_, ?_⟩
  · intro h
    simp only [simulate_house_investment]
    rw [if_neg (not_le.mpr hprice), if_neg (not_lt.mpr hdep), if_neg (not_lt.mpr hmr),
      if_neg (not_lt.mpr hg), if_neg (not_lt.mpr hc), if_neg (not_lt.mpr hinf),
      if_pos (by linarith : hp.house_price - hp.deposit < 0)]
  · intro h
    have hgen : generate_mortgage_amortization_schedule (hp.house_price - hp.deposit)
        hp.mortgage_interest_rate hp.mortgage_term_years 0 = .error .invalidInput := by
      unfold generate_mortgage_amortization_schedule
      rw [if_pos (by linarith : hp.house_price - hp.deposit ≤ 0)]
    simp only [simulate_house_investment]
    rw [if_neg (not_le.mpr hprice), if_neg (not_lt.mpr hdep), if_neg (not_lt.mpr hmr),
      if_neg (not_lt.mpr hg), if_neg (not_lt.mpr hc), if_neg (not_lt.mpr hinf),
      if_neg (by linarith : ¬hp.house_price - hp.deposit < 0), hgen]
  · intro h
    exact simulate_house_ok hp hprice hdep hmr hg hc hinf hT h

/-- C8 witness: deposit above, equal to, and below the price at concrete
inputs. -/
theorem claim_C8_witness :
    simulate_house_investment ⟨100, 150, 0, 0, 1, 1, 0, 0⟩ = .error .invalidInput ∧
    simulate_house_investment ⟨100, 100, 0, 0, 1, 2, 0, 0⟩ = .error .invalidInput ∧
    simulate_house_investment ⟨100, 40, 0, 0, 1, 1, 0, 0⟩ =
      .ok (houseDetails ⟨100, 40, 0, 0, 1, 1, 0, 0⟩
        (buildSchedule ((100 : ℚ) - 40) 0 1 0)) := by
  refine ⟨?_, ?_, ?_⟩
  · exact (claim_C8_amended ⟨100, 150, 0, 0, 1, 1, 0, 0⟩ (by norm_num) (by norm_num)
      le_rfl le_rfl le_rfl (by norm_num) le_rfl).1 (by norm_num)
  · exact (claim_C8_amended ⟨100, 100, 0, 0, 1, 2, 0, 0⟩ (by norm_num) (by norm_num)
      le_rfl le_rfl le_rfl (by norm_num) (by norm_num)).2.1 rfl
  · exact (claim_C8_amended ⟨100, 40, 0, 0, 1, 1, 0, 0⟩ (by norm_num) (by norm_num)
      le_rfl le_rfl le_rfl (by norm_num) le_rfl).2.2 (by norm_num)

/-! ## Claim C1 (where the LMI surcharge is applied) -/

/-- `calculate_lmi` succeeds whenever the property value is positive and
the loan nonnegative. -/
theorem calculate_lmi_ok (loan pv : ℚ) (hpv : 0 < pv) (hl : 0 ≤ loan) :
    ∃ v, calculate_lmi loan pv = .ok v := by
  simp only [calculate_lmi]
  rw [if_neg (not_le.mpr hpv), if_neg (not_lt.mpr hl)]
  split_ifs <;> exact ⟨_, rfl⟩

/-- C1 counterexample: at price 1,000,000 and deposit 100,000 (LVR 0.9,
surcharge 9,000 > 0) the year-1 mortgage balance returned by
`simulate_house_investment` is 450,000 — that of the surcharge-FREE
principal 900,000 — whereas amortizing the surcharge-inclusive principal
909,000 leaves 454,500 after year 1.  The returned series are therefore
not those of the surcharge-inclusive principal. -/
theorem claim_C1_counterexample :
    (simulate_house_investment ⟨1000000, 100000, 0, 0, 2, 1, 0, 0⟩).map
        HouseInvestmentDetails.mortgage_balances = .ok [450000] ∧
    calculate_lmi 900000 1000000 = .ok 9000 ∧
    (generate_mortgage_amortization_schedule (900000 + 9000) 0 2 0).map
        (fun s => s.balance.getD 11 0) = .ok 454500 ∧
    (450000 : ℚ) ≠ 454500 :=
  ⟨by with_unfolding_all rfl, by with_unfolding_all rfl, by with_unfolding_all rfl,
   by norm_num⟩

/-- C1 (corrected): the surcharge step function is computed once, but it
is added to the loan principal only inside `calculate_mortgage_details`
(whose reported loan amount and annuity payments are surcharge-inclusive);
`simulate_house_investment` amortizes the surcharge-free principal
`house_price - deposit`, so the mortgage-balance, interest and principal
series it returns are those of the surcharge-free loan. -/
theorem claim_C1_amended (hp : HousePurchase) (income : ℚ) (hprice : 0 < hp.house_price)
    (hdep : 0 ≤ hp.deposit) (hdp : hp.deposit < hp.house_price)
    (hmr : 0 ≤ hp.mortgage_interest_rate) (hg : 0 ≤ hp.annual_house_growth_rate)
    (hc : 0 ≤ hp.annual_property_costs) (hinf : -1 ≤ hp.inflation_rate)
    (hT : 1 ≤ hp.mortgage_term_years) (hinc : 0 ≤ income) :
    simulate_house_investment hp =
      .ok (houseDetails hp (buildSchedule (hp.house_price - hp.deposit)
        hp.mortgage_interest_rate hp.mortgage_term_years 0)) ∧
    ∃ lmi, calculate_lmi (hp.house_price - hp.deposit) hp.house_price = .ok lmi ∧
      calculate_mortgage_details hp income = .ok
        ⟨hp.house_price - hp.deposit + lmi, lmi,
         npf_pmt (hp.mortgage_interest_rate / 12) (hp.mortgage_term_years * 12)
           (hp.house_price - hp.deposit + lmi),
         npf_pmt (hp.mortgage_interest_rate / 12) (hp.mortgage_term_years * 12)
           (hp.house_price - hp.deposit + lmi) * 12 / 52,
         income / 12,
         income / 12 - npf_pmt (hp.mortgage_interest_rate / 12)
           (hp.mortgage_term_years * 12) (hp.house_price - hp.deposit + lmi)⟩ := by
  refine ⟨simulate_house_ok hp hprice hdep hmr hg hc hinf hT hdp, ?_⟩
  obtain ⟨lmi, hlmi⟩ :=
    calculate_lmi_ok (hp.house_price - hp.deposit) hp.house_price hprice (by linarith)
  refine ⟨lmi, hlmi, ?_⟩
  simp only [calculate_mortgage_details]
  rw [if_neg (not_lt.mpr hinc), if_neg (by linarith : ¬hp.house_price - hp.deposit < 0),
    hlmi]

/-- C1 witness: a concrete valid purchase (price 100, deposit 40, zero
rate, one-year term) instantiating the amended statement. -/
theorem claim_C1_witness :
    simulate_house_investment ⟨100, 40, 0, 0, 1, 2, 0, 0⟩ =
      .ok (houseDetails ⟨100, 40, 0, 0, 1, 2, 0, 0⟩
        (buildSchedule ((100 : ℚ) - 40) 0 1 0)) ∧
    ∃ lmi, calculate_lmi ((100 : ℚ) - 40) 100 = .ok lmi ∧
      calculate_mortgage_details ⟨100, 40, 0, 0, 1, 2, 0, 0⟩ 0 = .ok
        ⟨(100 : ℚ) - 40 + lmi, lmi,
         npf_pmt ((0 : ℚ) / 12) (1 * 12) ((100 : ℚ) - 40 + lmi),
         npf_pmt ((0 : ℚ) / 12) (1 * 12) ((100 : ℚ) - 40 + lmi) * 12 / 52,
         (0 : ℚ) / 12,
         (0 : ℚ) / 12 - npf_pmt ((0 : ℚ) / 12) (1 * 12) ((100 : ℚ) - 40 + lmi)⟩ :=
  claim_C1_amended ⟨100, 40, 0, 0, 1, 2, 0, 0⟩ 0 (by norm_num) (by norm_num) (by norm_num)
    le_rfl le_rfl le_rfl (by norm_num) le_rfl le_rfl

/-! ## Claim C10 (aggregate vs per-ledger tax adjustment) -/

/-- C10 counterexample: on the same simulation (initial 100 at price 100,
growth 100% then 0%, CGT 20%, zero inflation, ledger built from the same
contributions) the per-ledger adjustment yields `[180, 190]` (the year-2
gain enjoys the 50% holding discount) while the aggregate
`adjust_btc_for_inflation_and_cgt` yields `[180, 180]`: the two
implementations do not compute the same series. -/
theorem claim_C10_counterexample :
    simulate_btc_investments ⟨100, 100, [0, 0], [1, 0], 2⟩ =
      .ok (btcResult ⟨100, 100, [0, 0], [1, 0], 2⟩) ∧
    adjust_btc_for_tax (btcResult ⟨100, 100, [0, 0], [1, 0], 2⟩)
      (investments_record ⟨100, 100, [0, 0], [1, 0], 2⟩) (1 / 5) = [180, 190] ∧
    adjust_btc_for_inflation_and_cgt (btcResult ⟨100, 100, [0, 0], [1, 0], 2⟩).btc_values
      0 (1 / 5) [1, 2] (btcResult ⟨100, 100, [0, 0], [1, 0], 2⟩).total_invested =
      [180, 180] ∧
    ([180, 190] : List ℚ) ≠ [180, 180] :=
  ⟨by with_unfolding_all rfl, by with_unfolding_all rfl, by with_unfolding_all rfl,
   by norm_num⟩

/-- C10 (corrected): the two implementations agree at year 1 (where
netting against total invested coincides with the per-entry gain, no
holding discount applies yet, and the base-year inflation factor is 1),
but differ in general from year 2 on: the aggregate version nets gains
against cumulative investment, never applies the 50% holding-period
discount, and folds the inflation adjustment into its output. -/
theorem claim_C10_amended (inv : BTCInvestment) (res : BTCSimulationResult)
    (cgt_rate inflation_rate : ℚ) (years_range : List ℕ)
    (hok : simulate_btc_investments inv = .ok res) (hy : 1 ≤ inv.years)
    (hyr0 : years_range.getD 0 0 = 1) (hyrlen : 1 ≤ years_range.length) :
    (adjust_btc_for_inflation_and_cgt res.btc_values inflation_rate cgt_rate years_range
      res.total_invested).getD 0 0 =
    (adjust_btc_for_tax res (investments_record inv) cgt_rate).getD 0 0 := by
  unfold simulate_btc_investments at hok
  split_ifs at hok with h1 h2 h3 h4 h5 h6
  replace hok : res = btcResult inv := ((Except.ok.injEq _ _).mp hok).symm
  subst hok
  have hp0 : 0 < inv.initial_btc_price := not_le.mp h3
  have hinit : 0 ≤ inv.initial_investment := not_lt.mp h4
  have hamt : ∀ a ∈ inv.annual_investment_amounts, 0 ≤ a := by
    push_neg at h6
    exact h6
  have ha0 : 0 ≤ inv.annual_investment_amounts.getD 0 0 := listGetD_nonneg hamt 0
  -- decompose years_range
  obtain ⟨y0, yr, hyr⟩ :=
    List.exists_cons_of_ne_nil (List.ne_nil_of_length_pos (by omega) : years_range ≠ [])
  have hy0 : y0 = 1 := by
    rw [hyr] at hyr0
    simpa using hyr0
  subst hy0
  -- decompose the value and total-invested series
  obtain ⟨Y, hY⟩ : ∃ Y, inv.years = Y + 1 := ⟨inv.years - 1, by omega⟩
  have hmap1 : (btcResult inv).btc_values =
      btcHoldingsAt inv 1 * btcPriceAt inv 1 ::
        ((List.range Y).map fun k =>
          btcHoldingsAt inv (k + 1 + 1) * btcPriceAt inv (k + 1 + 1)) := by
    show (List.range inv.years).map _ = _
    rw [hY, List.range_succ_eq_map, List.map_cons, List.map_map]
    rfl
  have hmap2 : (btcResult inv).total_invested =
      btcTotalInvestedAt inv 1 ::
        ((List.range Y).map fun k => btcTotalInvestedAt inv (k + 1 + 1)) := by
    show (List.range inv.years).map _ = _
    rw [hY, List.range_succ_eq_map, List.map_cons, List.map_map]
    rfl
  -- the right-hand side: element 0 of the per-ledger adjustment
  have hky : (0 : ℕ) < (btcResult inv).years := by
    show 0 < inv.years
    omega
  rw [adjust_btc_for_tax_getD _ _ _ hky]
  have hh : (btcResult inv).btc_holdings.getD 0 0 = btcHoldingsAt inv 1 := by
    show ((List.range inv.years).map fun k => btcHoldingsAt inv (k + 1)).getD 0 0 = _
    rw [listGetD_range_map _ _ (by omega : 0 < inv.years)]
  have hpr : (btcResult inv).btc_prices.getD 0 0 = btcPriceAt inv 1 := by
    show ((List.range inv.years).map fun k => btcPriceAt inv (k + 1)).getD 0 0 = _
    rw [listGetD_range_map _ _ (by omega : 0 < inv.years)]
  rw [hh, hpr]
  -- the ledger sum at year 1 reduces to the initial entry's tax
  have hsum : ((investments_record inv).map (srcRecordTax (btcResult inv) cgt_rate 1)).sum
      = srcRecordTax (btcResult inv) cgt_rate 1 ⟨inv.initial_investment, 0⟩ := by
    unfold investments_record
    rw [List.map_cons, List.sum_cons, List.map_map]
    have hzero : ∀ x ∈ (List.range inv.years).map
        (srcRecordTax (btcResult inv) cgt_rate 1 ∘ fun k =>
          (⟨inv.annual_investment_amounts.getD k 0, k + 1⟩ : ContributionRecord)), x = 0 := by
      intro x hx
      obtain ⟨k, hk, rfl⟩ := List.mem_map.mp hx
      show srcRecordTax (btcResult inv) cgt_rate 1 ⟨_, k + 1⟩ = 0
      simp only [srcRecordTax]
      rw [if_pos]
      show (1 : ℕ) ≤ k + 1
      omega
    rw [List.sum_eq_zero hzero, add_zero]
  rw [hsum]
  -- the left-hand side: element 0 of the aggregate adjustment
  rw [hmap1, hmap2, hyr]
  simp only [adjust_btc_for_inflation_and_cgt, List.zip_cons_cons, List.map_cons,
    List.getD_cons_zero, Nat.sub_self, pow_zero, div_one]
  -- unfold the year-1 state
  have hhold1 : btcHoldingsAt inv 1 = inv.initial_investment / inv.initial_btc_price +
      (if 0 < btcPriceAt inv 1 then
        inv.annual_investment_amounts.getD 0 0 / btcPriceAt inv 1 else 0) := rfl
  have htot1 : btcTotalInvestedAt inv 1 =
      inv.initial_investment + inv.annual_investment_amounts.getD 0 0 := rfl
  have htax : srcRecordTax (btcResult inv) cgt_rate 1 ⟨inv.initial_investment, 0⟩ =
      if 0 < inv.initial_investment / inv.initial_btc_price * btcPriceAt inv 1 -
          inv.initial_investment then
        (inv.initial_investment / inv.initial_btc_price * btcPriceAt inv 1 -
          inv.initial_investment) * cgt_rate
      else 0 := by
    simp only [srcRecordTax, priceAtRecord, Nat.sub_self]
    rw [if_neg (by omega : ¬(1 : ℕ) ≤ 0), if_neg (lt_irrefl 0), hpr,
      show (btcResult inv).initial_btc_price = inv.initial_btc_price from rfl,
      if_neg (by omega : ¬(0 : ℕ) + 1 < 1), mul_one]
  rw [htax, hhold1, htot1]
  rw [sub_right_inj]
  set p1 := btcPriceAt inv 1 with hp1def
  set q := inv.initial_investment / inv.initial_btc_price with hqdef
  have hq : 0 ≤ q := div_nonneg hinit (le_of_lt hp0)
  rcases lt_or_le 0 p1 with hpos | hneg
  · rw [if_pos hpos]
    have hcancel : inv.annual_investment_amounts.getD 0 0 / p1 * p1 =
        inv.annual_investment_amounts.getD 0 0 := div_mul_cancel₀ _ (ne_of_gt hpos)
    have hexp : (q + inv.annual_investment_amounts.getD 0 0 / p1) * p1 -
        (inv.initial_investment + inv.annual_investment_amounts.getD 0 0) =
        q * p1 - inv.initial_investment := by
      rw [add_mul, hcancel]
      ring
    rw [hexp]
    rcases lt_or_le 0 (q * p1 - inv.initial_investment) with hg | hg
    · rw [if_pos hg, max_eq_right (le_of_lt hg)]
    · rw [if_neg (not_lt.mpr hg), max_eq_left hg, zero_mul]
  · rw [if_neg (not_lt.mpr hneg)]
    have hv : (q + 0) * p1 = q * p1 := by ring
    have hvle : q * p1 ≤ 0 := mul_nonpos_of_nonneg_of_nonpos hq hneg
    rw [hv]
    have hgle : ¬0 < q * p1 - inv.initial_investment := by
      push_neg
      linarith
    rw [if_neg hgle, max_eq_left (by linarith), zero_mul]

/-- C10 witness: the year-1 agreement at a concrete simulation (two
years, nonzero inflation and CGT). -/
theorem claim_C10_witness :
    (adjust_btc_for_inflation_and_cgt
        (btcResult ⟨100, 100, [0, 0], [1, 0], 2⟩).btc_values (1 / 2) (1 / 5) [1, 2]
        (btcResult ⟨100, 100, [0, 0], [1, 0], 2⟩).total_invested).getD 0 0 =
    (adjust_btc_for_tax (btcResult ⟨100, 100, [0, 0], [1, 0], 2⟩)
        (investments_record ⟨100, 100, [0, 0], [1, 0], 2⟩) (1 / 5)).getD 0 0 :=
  claim_C10_amended ⟨100, 100, [0, 0], [1, 0], 2⟩ _ (1 / 5) (1 / 2) [1, 2]
    (by with_unfolding_all rfl) (by norm_num) (by norm_num) (by norm_num)

/-! ## Nonnegativity helpers (C9) -/

/-- Per-year group sums of a nonnegative column are nonnegative. -/
theorem annualGroupSum_nonneg (f : AmortEntry → ℚ) (entries : List AmortEntry)
    (hf : ∀ e ∈ entries, 0 ≤ f e) :
    ∀ x ∈ annualGroupSum f entries, 0 ≤ x := by
  intro x hx
  obtain ⟨k, hk, rfl⟩ := List.mem_map.mp hx
  apply List.sum_nonneg
  intro y hy
  obtain ⟨e, he, rfl⟩ := List.mem_map.mp hy
  exact hf e (List.mem_of_mem_filter he)

/-- All five series produced by the house year loop stay nonnegative when
the inputs satisfy the spec's preconditions, the annual principal list is
nonnegative, and the running balance starts within `[0, house_price]`. -/
theorem houseLoop_nonneg (hp : HousePurchase) (ap : List ℚ)
    (hprice : 0 < hp.house_price) (hg : 0 ≤ hp.annual_house_growth_rate)
    (hcost : 0 ≤ hp.annual_property_costs) (hinf : -1 ≤ hp.inflation_rate)
    (hap : ∀ x ∈ ap, 0 ≤ x) :
    ∀ (n year : ℕ) (bal invested : ℚ), 0 ≤ bal → bal ≤ hp.house_price → 0 ≤ invested →
      (∀ x ∈ (houseLoop hp ap n year bal invested).house_values, 0 ≤ x) ∧
      (∀ x ∈ (houseLoop hp ap n year bal invested).mortgage_balances, 0 ≤ x) ∧
      (∀ x ∈ (houseLoop hp ap n year bal invested).equities, 0 ≤ x) ∧
      (∀ x ∈ (houseLoop hp ap n year bal invested).annual_costs, 0 ≤ x) ∧
      (∀ x ∈ (houseLoop hp ap n year bal invested).cumulative_investment, 0 ≤ x)
  | 0, year, bal, invested, _, _, _ => by simp [houseLoop]
  | n + 1, year, bal, invested, hbal, hble, hinv => by
    have hpow : (1 : ℚ) ≤ (1 + hp.annual_house_growth_rate) ^ year :=
      one_le_pow₀ (by linarith)
    have hvpos : 0 < hp.house_price * (1 + hp.annual_house_growth_rate) ^ year :=
      mul_pos hprice (by linarith)
    have hvge : hp.house_price ≤ hp.house_price * (1 + hp.annual_house_growth_rate) ^ year :=
      le_mul_of_one_le_right (le_of_lt hprice) hpow
    have hap0 : 0 ≤ ap.getD (year - 1) 0 := listGetD_nonneg hap _
    have hcosts : 0 ≤ hp.annual_property_costs * (1 + hp.inflation_rate) ^ (year - 1) :=
      mul_nonneg hcost (pow_nonneg (by linarith) _)
    by_cases hcase : year ≤ ap.length
    · have hbal2 : (0 : ℚ) ≤ max (bal - ap.getD (year - 1) 0) 0 := le_max_right _ _
      have hbal2le : max (bal - ap.getD (year - 1) 0) 0 ≤ hp.house_price :=
        max_le (by linarith) (le_of_lt hprice)
      have hinv2 : 0 ≤ invested + ap.getD (year - 1) 0 +
          hp.annual_property_costs * (1 + hp.inflation_rate) ^ (year - 1) := by
        linarith
      obtain ⟨ih1, ih2, ih3, ih4, ih5⟩ := houseLoop_nonneg hp ap hprice hg hcost hinf hap
        n (year + 1) _ _ hbal2 hbal2le hinv2
      simp only [houseLoop, if_pos hcase]
      refine ⟨?_, ?_, ?_, ?_, ?_⟩
      · intro x hx
        rcases List.mem_cons.mp hx with rfl | hx
        · exact le_of_lt hvpos
        · exact ih1 x hx
      · intro x hx
        rcases List.mem_cons.mp hx with rfl | hx
        · exact hbal2
        · exact ih2 x hx
      · intro x hx
        rcases List.mem_cons.mp hx with rfl | hx
        · have := le_trans hvge (le_refl _)
          linarith [hbal2le, hvge]
        · exact ih3 x hx
      · intro x hx
        rcases List.mem_cons.mp hx with rfl | hx
        · exact hcosts
        · exact ih4 x hx
      · intro x hx
        rcases List.mem_cons.mp hx with rfl | hx
        · exact hinv2
        · exact ih5 x hx
    · have hinv2 : 0 ≤ invested +
          hp.annual_property_costs * (1 + hp.inflation_rate) ^ (year - 1) := by
        linarith
      obtain ⟨ih1, ih2, ih3, ih4, ih5⟩ := houseLoop_nonneg hp ap hprice hg hcost hinf hap
        n (year + 1) _ _ hbal hble hinv2
      simp only [houseLoop, if_neg hcase]
      refine ⟨?_, ?_, ?_, ?_, ?_⟩
      · intro x hx
        rcases List.mem_cons.mp hx with rfl | hx
        · exact le_of_lt hvpos
        · exact ih1 x hx
      · intro x hx
        rcases List.mem_cons.mp hx with rfl | hx
        · exact hbal
        · exact ih2 x hx
      · intro x hx
        rcases List.mem_cons.mp hx with rfl | hx
        · linarith [hvge]
        · exact ih3 x hx
      · intro x hx
        rcases List.mem_cons.mp hx with rfl | hx
        · exact hcosts
        · exact ih4 x hx
      · intro x hx
        rcases List.mem_cons.mp hx with rfl | hx
        · exact hinv2
        · exact ih5 x hx

/-- With a positive initial price and nonnegative growth rates, every
yearly BTC price is positive. -/
theorem btcPriceAt_pos (inv : BTCInvestment) (hp0 : 0 < inv.initial_btc_price)
    (hr : ∀ r ∈ inv.annual_growth_rates, 0 ≤ r) : ∀ t, 0 < btcPriceAt inv t
  | 0 => hp0
  | t + 1 => by
    have h1 : 0 ≤ inv.annual_growth_rates.getD t 0 := listGetD_nonneg hr t
    have h2 := btcPriceAt_pos inv hp0 hr t
    simp only [btcPriceAt]
    exact mul_pos h2 (by linarith)

/-- Holdings never decrease (contributions are nonnegative). -/
theorem btcHoldingsAt_mono (inv : BTCInvestment)
    (ha : ∀ a ∈ inv.annual_investment_amounts, 0 ≤ a) (t : ℕ) :
    btcHoldingsAt inv t ≤ btcHoldingsAt inv (t + 1) := by
  have h1 : 0 ≤ inv.annual_investment_amounts.getD t 0 := listGetD_nonneg ha t
  simp only [btcHoldingsAt]
  split_ifs with h
  · have : 0 ≤ inv.annual_investment_amounts.getD t 0 / btcPriceAt inv (t + 1) :=
      div_nonneg h1 (le_of_lt h)
    linarith
  · simp

/-- Holdings are nonnegative. -/
theorem btcHoldingsAt_nonneg (inv : BTCInvestment) (hp0 : 0 < inv.initial_btc_price)
    (hinit : 0 ≤ inv.initial_investment)
    (ha : ∀ a ∈ inv.annual_investment_amounts, 0 ≤ a) : ∀ t, 0 ≤ btcHoldingsAt inv t
  | 0 => div_nonneg hinit (le_of_lt hp0)
  | t + 1 =>
    le_trans (btcHoldingsAt_nonneg inv hp0 hinit ha t) (btcHoldingsAt_mono inv ha t)

/-- With all prices positive, holdings after `t` years are the initial
units plus the sum of each year's purchased units. -/
theorem btcHoldingsAt_eq_sum (inv : BTCInvestment)
    (hppos : ∀ t, 0 < btcPriceAt inv t) : ∀ t,
    btcHoldingsAt inv t = inv.initial_investment / inv.initial_btc_price +
      ∑ j ∈ Finset.range t, inv.annual_investment_amounts.getD j 0 / btcPriceAt inv (j + 1)
  | 0 => by simp [btcHoldingsAt]
  | t + 1 => by
    simp only [btcHoldingsAt]
    rw [btcHoldingsAt_eq_sum inv hppos t, if_pos (hppos (t + 1)), Finset.sum_range_succ]
    ring

/-- A per-record tax is bounded by the record's reconstructed current
value (for `y < t`; it is `0` otherwise), provided the CGT rate lies in
`[0,1]`. -/
theorem srcRecordTax_le (sim : BTCSimulationResult) (cgt_rate : ℚ) (t : ℕ)
    (r : ContributionRecord) (hc1 : 0 ≤ cgt_rate) (hc2 : cgt_rate ≤ 1)
    (ha : 0 ≤ r.investment)
    (hev : 0 ≤ r.investment / priceAtRecord sim r.year_invested *
      sim.btc_prices.getD (t - 1) 0) :
    srcRecordTax sim cgt_rate t r ≤
      if r.year_invested < t then
        r.investment / priceAtRecord sim r.year_invested * sim.btc_prices.getD (t - 1) 0
      else 0 := by
  simp only [srcRecordTax]
  rcases le_or_lt t r.year_invested with h | h
  · rw [if_pos h, if_neg (not_lt.mpr h)]
  · rw [if_neg (not_le.mpr h), if_pos h]
    set ev := r.investment / priceAtRecord sim r.year_invested *
      sim.btc_prices.getD (t - 1) 0 with hev_def
    rcases lt_or_le 0 (ev - r.investment) with hgain | hgain
    · rw [if_pos hgain]
      have hd0 : (0 : ℚ) ≤ if r.year_invested + 1 < t then (1 : ℚ) / 2 else 1 := by
        split_ifs <;> norm_num
      have hd1 : (if r.year_invested + 1 < t then (1 : ℚ) / 2 else 1) ≤ 1 := by
        split_ifs <;> norm_num
      have hcd : cgt_rate * (if r.year_invested + 1 < t then (1 : ℚ) / 2 else 1) ≤ 1 := by
        calc cgt_rate * (if r.year_invested + 1 < t then (1 : ℚ) / 2 else 1)
            ≤ 1 * 1 := mul_le_mul hc2 hd1 hd0 (by norm_num)
          _ = 1 := by norm_num
      calc (ev - r.investment) * cgt_rate *
            (if r.year_invested + 1 < t then (1 : ℚ) / 2 else 1)
          = (ev - r.investment) *
            (cgt_rate * (if r.year_invested + 1 < t then (1 : ℚ) / 2 else 1)) := by ring
        _ ≤ (ev - r.investment) * 1 := mul_le_mul_of_nonneg_left hcd (le_of_lt hgain)
        _ = ev - r.investment := mul_one _
        _ ≤ ev := by linarith
    · rw [if_neg (not_lt.mpr hgain)]
      exact hev

/-- A list is elementwise nonnegative if it is nonnegative at every
index. -/
theorem forall_mem_of_getD_nonneg {l : List ℚ} (h : ∀ k, k < l.length → 0 ≤ l.getD k 0) :
    ∀ x ∈ l, 0 ≤ x := by
  intro x hx
  obtain ⟨⟨k, hk⟩, rfl⟩ := List.mem_iff_get.mp hx
  have h2 := h k hk
  rwa [List.getD_eq_get _ _ hk] at h2

/-- Under the spec preconditions (positive initial price, nonnegative
initial investment, growth rates and contributions, CGT rate in `[0,1]`),
every after-tax value of the canonical ledger is nonnegative. -/
theorem adjust_tax_nonneg (inv : BTCInvestment) (cgt_rate : ℚ)
    (b3 : 0 < inv.initial_btc_price) (b4 : 0 ≤ inv.initial_investment)
    (b5 : ∀ g ∈ inv.annual_growth_rates, 0 ≤ g)
    (b6 : ∀ a ∈ inv.annual_investment_amounts, 0 ≤ a)
    (hc1 : 0 ≤ cgt_rate) (hc2 : cgt_rate ≤ 1) :
    ∀ x ∈ adjust_btc_for_tax (btcResult inv) (investments_record inv) cgt_rate, 0 ≤ x := by
  have hppos : ∀ t, 0 < btcPriceAt inv t := btcPriceAt_pos inv b3 b5
  apply forall_mem_of_getD_nonneg
  intro k hk
  rw [adjust_btc_for_tax_length] at hk
  have hkY : k < inv.years := hk
  rw [adjust_btc_for_tax_getD _ _ _ hk]
  have hh : (btcResult inv).btc_holdings.getD k 0 = btcHoldingsAt inv (k + 1) := by
    show ((List.range inv.years).map fun i => btcHoldingsAt inv (i + 1)).getD k 0 = _
    rw [listGetD_range_map _ _ hkY]
  have hpr : (btcResult inv).btc_prices.getD k 0 = btcPriceAt inv (k + 1) := by
    show ((List.range inv.years).map fun i => btcPriceAt inv (i + 1)).getD k 0 = _
    rw [listGetD_range_map _ _ hkY]
  have hprt : (btcResult inv).btc_prices.getD (k + 1 - 1) 0 = btcPriceAt inv (k + 1) := by
    rw [Nat.add_sub_cancel]
    exact hpr
  have hprec0 : priceAtRecord (btcResult inv) 0 = inv.initial_btc_price := by
    simp only [priceAtRecord]
    rw [if_neg (lt_irrefl 0)]
    rfl
  have hprecj : ∀ j, j < inv.years →
      priceAtRecord (btcResult inv) (j + 1) = btcPriceAt inv (j + 1) := by
    intro j hj
    simp only [priceAtRecord]
    rw [if_pos (by omega : 0 < j + 1), Nat.add_sub_cancel]
    show ((List.range inv.years).map fun i => btcPriceAt inv (i + 1)).getD j 0 = _
    rw [listGetD_range_map _ _ hj]
  rw [hh, hpr]
  have hsum_le :
      ((investments_record inv).map (srcRecordTax (btcResult inv) cgt_rate (k + 1))).sum ≤
        btcHoldingsAt inv k * btcPriceAt inv (k + 1) := by
    unfold investments_record
    rw [List.map_cons, List.sum_cons, List.map_map, list_range_map_sum]
    have hev0 : (0 : ℚ) ≤ inv.initial_investment / priceAtRecord (btcResult inv) 0 *
        (btcResult inv).btc_prices.getD (k + 1 - 1) 0 := by
      rw [hprec0, hprt]
      exact mul_nonneg (div_nonneg b4 (le_of_lt b3)) (le_of_lt (hppos (k + 1)))
    have h0 : srcRecordTax (btcResult inv) cgt_rate (k + 1) ⟨inv.initial_investment, 0⟩ ≤
        inv.initial_investment / inv.initial_btc_price * btcPriceAt inv (k + 1) := by
      refine le_trans (srcRecordTax_le (btcResult inv) cgt_rate (k + 1)
        ⟨inv.initial_investment, 0⟩ hc1 hc2 b4 hev0) (le_of_eq ?_)
      have hcond : (⟨inv.initial_investment, 0⟩ : ContributionRecord).year_invested < k + 1 := by
        show 0 < k + 1
        omega
      rw [if_pos hcond, hprec0, hprt]
    have hj_le : ∀ j ∈ Finset.range inv.years,
        (srcRecordTax (btcResult inv) cgt_rate (k + 1) ∘ fun i =>
          (⟨inv.annual_investment_amounts.getD i 0, i + 1⟩ : ContributionRecord)) j ≤
        (if j < k then inv.annual_investment_amounts.getD j 0 / btcPriceAt inv (j + 1) *
          btcPriceAt inv (k + 1) else 0) := by
      intro j hj
      rw [Finset.mem_range] at hj
      have haj : 0 ≤ inv.annual_investment_amounts.getD j 0 := listGetD_nonneg b6 j
      have hevj : (0 : ℚ) ≤ inv.annual_investment_amounts.getD j 0 /
          priceAtRecord (btcResult inv) (j + 1) *
          (btcResult inv).btc_prices.getD (k + 1 - 1) 0 := by
        rw [hprecj j hj, hprt]
        exact mul_nonneg (div_nonneg haj (le_of_lt (hppos (j + 1))))
          (le_of_lt (hppos (k + 1)))
      refine le_trans (srcRecordTax_le (btcResult inv) cgt_rate (k + 1)
        ⟨inv.annual_investment_amounts.getD j 0, j + 1⟩ hc1 hc2 haj hevj) (le_of_eq ?_)
      by_cases hcase : j < k
      · have hcond : (⟨inv.annual_investment_amounts.getD j 0, j + 1⟩ :
            ContributionRecord).year_invested < k + 1 := by
          show j + 1 < k + 1
          omega
        rw [if_pos hcond, if_pos hcase, hprecj j hj, hprt]
      · have hcond : ¬(⟨inv.annual_investment_amounts.getD j 0, j + 1⟩ :
            ContributionRecord).year_invested < k + 1 := by
          show ¬j + 1 < k + 1
          omega
        rw [if_neg hcond, if_neg hcase]
    have hsum2 := Finset.sum_le_sum hj_le
    have hsub : Finset.range k ⊆ Finset.range inv.years :=
      Finset.range_subset.mpr (by omega)
    have hzero : ∀ j ∈ Finset.range inv.years, j ∉ Finset.range k →
        (if j < k then inv.annual_investment_amounts.getD j 0 / btcPriceAt inv (j + 1) *
          btcPriceAt inv (k + 1) else 0) = 0 := by
      intro j _ hjn
      rw [Finset.mem_range] at hjn
      rw [if_neg hjn]
    have hsum3 : ∑ j ∈ Finset.range inv.years,
        (if j < k then inv.annual_investment_amounts.getD j 0 / btcPriceAt inv (j + 1) *
          btcPriceAt inv (k + 1) else 0) =
        (∑ j ∈ Finset.range k,
          inv.annual_investment_amounts.getD j 0 / btcPriceAt inv (j + 1)) *
          btcPriceAt inv (k + 1) := by
      rw [← Finset.sum_subset hsub hzero, Finset.sum_mul]
      apply Finset.sum_congr rfl
      intro j hj
      rw [Finset.mem_range] at hj
      rw [if_pos hj]
    have hhold := btcHoldingsAt_eq_sum inv hppos k
    calc srcRecordTax (btcResult inv) cgt_rate (k + 1) ⟨inv.initial_investment, 0⟩ +
          ∑ j ∈ Finset.range inv.years,
            (srcRecordTax (btcResult inv) cgt_rate (k + 1) ∘ fun i =>
              (⟨inv.annual_investment_amounts.getD i 0, i + 1⟩ : ContributionRecord)) j
        ≤ inv.initial_investment / inv.initial_btc_price * btcPriceAt inv (k + 1) +
          ∑ j ∈ Finset.range inv.years,
            (if j < k then inv.annual_investment_amounts.getD j 0 / btcPriceAt inv (j + 1) *
              btcPriceAt inv (k + 1) else 0) := add_le_add h0 hsum2
      _ = inv.initial_investment / inv.initial_btc_price * btcPriceAt inv (k + 1) +
          (∑ j ∈ Finset.range k,
            inv.annual_investment_amounts.getD j 0 / btcPriceAt inv (j + 1)) *
            btcPriceAt inv (k + 1) := by rw [hsum3]
      _ = btcHoldingsAt inv k * btcPriceAt inv (k + 1) := by
          rw [hhold]
          ring
  have hmono := btcHoldingsAt_mono inv b6 k
  have hP := hppos (k + 1)
  have hstep := mul_le_mul_of_nonneg_right hmono (le_of_lt hP)
  linarith

/-! ## Claim theorem: C9 (nonnegativity of all monetary series) -/

/-- C9 (confirmed): under the spec's preconditions (positive price, valid
deposit, nonnegative rates/costs/amounts, CGT rate in `[0,1]`), both
simulations succeed and every entry of the house values, mortgage
balances, equities, annual property costs, cumulative investment, asset
prices, holdings, nominal values and after-tax values is nonnegative. -/
theorem claim_C9 (hp : HousePurchase) (inv : BTCInvestment) (cgt_rate : ℚ)
    (hprice : 0 < hp.house_price) (hdep : 0 ≤ hp.deposit)
    (hdp : hp.deposit < hp.house_price) (hmr : 0 ≤ hp.mortgage_interest_rate)
    (hg : 0 ≤ hp.annual_house_growth_rate) (hc : 0 ≤ hp.annual_property_costs)
    (hinf : -1 ≤ hp.inflation_rate) (hT : 1 ≤ hp.mortgage_term_years)
    (b1 : inv.annual_investment_amounts.length = inv.years)
    (b2 : inv.annual_growth_rates.length = inv.years)
    (b3 : 0 < inv.initial_btc_price) (b4 : 0 ≤ inv.initial_investment)
    (b5 : ∀ g ∈ inv.annual_growth_rates, 0 ≤ g)
    (b6 : ∀ a ∈ inv.annual_investment_amounts, 0 ≤ a)
    (hc1 : 0 ≤ cgt_rate) (hc2 : cgt_rate ≤ 1) :
    ∃ d res, simulate_house_investment hp = .ok d ∧
      simulate_btc_investments inv = .ok res ∧
      (∀ x ∈ d.house_values, 0 ≤ x) ∧ (∀ x ∈ d.mortgage_balances, 0 ≤ x) ∧
      (∀ x ∈ d.equities, 0 ≤ x) ∧ (∀ x ∈ d.annual_property_costs, 0 ≤ x) ∧
      (∀ x ∈ d.cumulative_investment_house, 0 ≤ x) ∧
      (∀ x ∈ res.btc_prices, 0 ≤ x) ∧ (∀ x ∈ res.btc_holdings, 0 ≤ x) ∧
      (∀ x ∈ res.btc_values, 0 ≤ x) ∧
      (∀ x ∈ adjust_btc_for_tax res (investments_record inv) cgt_rate, 0 ≤ x) := by
  have hL : 0 < hp.house_price - hp.deposit := by linarith
  have hr12 : 0 ≤ hp.mortgage_interest_rate / 12 := div_nonneg hmr (by norm_num)
  have hTn : hp.mortgage_term_years * 12 ≠ 0 := by omega
  have hqpay := npf_pmt_ge (hp.house_price - hp.deposit) (hp.mortgage_interest_rate / 12)
    (hp.mortgage_term_years * 12) hL hr12 hTn
  have hbounds := amortRun_bounds
    (npf_pmt (hp.mortgage_interest_rate / 12) (hp.mortgage_term_years * 12)
      (hp.house_price - hp.deposit)) 0 (hp.mortgage_interest_rate / 12)
    (hp.house_price - hp.deposit) hr12 (by linarith)
    (hp.mortgage_term_years * 12) 1 (hp.house_price - hp.deposit) hL le_rfl
  have hap : ∀ x ∈ annualGroupSum AmortEntry.principal
      (amortRun (npf_pmt (hp.mortgage_interest_rate / 12) (hp.mortgage_term_years * 12)
        (hp.house_price - hp.deposit)) 0 (hp.mortgage_interest_rate / 12)
        (hp.mortgage_term_years * 12) 1 (hp.house_price - hp.deposit)), 0 ≤ x :=
    annualGroupSum_nonneg _ _ (fun e he => (hbounds.1 e he).2.1)
  obtain ⟨l1, l2, l3, l4, l5⟩ := houseLoop_nonneg hp
    (annualGroupSum AmortEntry.principal
      (amortRun (npf_pmt (hp.mortgage_interest_rate / 12) (hp.mortgage_term_years * 12)
        (hp.house_price - hp.deposit)) 0 (hp.mortgage_interest_rate / 12)
        (hp.mortgage_term_years * 12) 1 (hp.house_price - hp.deposit)))
    hprice hg hc hinf hap hp.years_to_simulate 1 (hp.house_price - hp.deposit) hp.deposit
    (le_of_lt hL) (by linarith) hdep
  have hppos : ∀ t, 0 < btcPriceAt inv t := btcPriceAt_pos inv b3 b5
  refine ⟨houseDetails hp (buildSchedule (hp.house_price - hp.deposit)
      hp.mortgage_interest_rate hp.mortgage_term_years 0), btcResult inv,
    simulate_house_ok hp hprice hdep hmr hg hc hinf hT hdp,
    simulate_btc_investments_ok inv b1 b2 b3 b4
      (fun r hr => by linarith [b5 r hr]) b6, ?_, ?_, ?_, ?_, ?_, ?_, ?_, ?_, ?_⟩
  · intro x hx
    exact l1 x ((List.take_sublist _ _).subset hx)
  · intro x hx
    exact l2 x ((List.take_sublist _ _).subset hx)
  · intro x hx
    exact l3 x ((List.take_sublist _ _).subset hx)
  · intro x hx
    exact l4 x ((List.take_sublist _ _).subset hx)
  · intro x hx
    exact l5 x ((List.take_sublist _ _).subset hx)
  · intro x hx
    obtain ⟨k, hk, rfl⟩ := List.mem_map.mp hx
    exact le_of_lt (hppos (k + 1))
  · intro x hx
    obtain ⟨k, hk, rfl⟩ := List.mem_map.mp hx
    exact btcHoldingsAt_nonneg inv b3 b4 b6 (k + 1)
  · intro x hx
    obtain ⟨k, hk, rfl⟩ := List.mem_map.mp hx
    exact mul_nonneg (btcHoldingsAt_nonneg inv b3 b4 b6 (k + 1))
      (le_of_lt (hppos (k + 1)))
  · exact adjust_tax_nonneg inv cgt_rate b3 b4 b5 b6 hc1 hc2

/-- C9 witness: a concrete valid scenario (house: price 100, deposit 40,
one-year zero-rate mortgage; BTC: 100 initial at price 100, one year of
100% growth, contribution 10, CGT 20%). -/
theorem claim_C9_witness :
    ∃ d res, simulate_house_investment ⟨100, 40, 0, 0, 1, 1, 0, 0⟩ = .ok d ∧
      simulate_btc_investments ⟨100, 100, [10], [1], 1⟩ = .ok res ∧
      (∀ x ∈ d.house_values, 0 ≤ x) ∧ (∀ x ∈ d.mortgage_balances, 0 ≤ x) ∧
      (∀ x ∈ d.equities, 0 ≤ x) ∧ (∀ x ∈ d.annual_property_costs, 0 ≤ x) ∧
      (∀ x ∈ d.cumulative_investment_house, 0 ≤ x) ∧
      (∀ x ∈ res.btc_prices, 0 ≤ x) ∧ (∀ x ∈ res.btc_holdings, 0 ≤ x) ∧
      (∀ x ∈ res.btc_values, 0 ≤ x) ∧
      (∀ x ∈ adjust_btc_for_tax res (investments_record ⟨100, 100, [10], [1], 1⟩)
        (1 / 5), 0 ≤ x) :=
  claim_C9 ⟨100, 40, 0, 0, 1, 1, 0, 0⟩ ⟨100, 100, [10], [1], 1⟩ (1 / 5)
    (by norm_num) (by norm_num) (by norm_num) le_rfl le_rfl le_rfl (by norm_num) le_rfl
    (by decide) (by decide) (by norm_num) (by norm_num) (by decide) (by decide)
    (by norm_num) (by norm_num)
